import Mathlib

set_option maxRecDepth 8000

/-!
Verification development for the playback-sequencing state machine of the
YouTube music player component (src/app/components/youtubeMusicPlayer.tsx).

The component's relevant state consists of a playlist, an optional current
track index, a playing flag, a play mode, and a shuffle history
(playedIndicesRef).  The operations below are shallow embeddings of the
source functions: selectVideo, playNext, playPrevious, togglePlayMode,
addVideo, removeVideo, extractVideoId, plus the localStorage load/save
effects.  Randomness inside playNext (Math.floor(Math.random() * k), a
uniform pick in [0, k)) is embedded as an explicit oracle argument r,
reduced modulo k, so that universal statements range over all possible
random choices.
-/

namespace MusicPlayer

/-- A playlist entry (interface PlaylistItem): creation-time id, the
extracted 11-character video id, user title, and original URL. -/
structure PlaylistItem where
  id : Nat
  youtubeId : String
  title : String
  originalUrl : String
deriving DecidableEq

/-- type PlayMode = "none" | "repeat-all" | "shuffle".  The constructor
`off` embeds the string value "none". -/
inductive PlayMode where
  | off
  | repeatAll
  | shuffle
deriving DecidableEq

/-- The in-memory component state used by the sequencing logic:
playlist, currentTrackIndex, isPlaying, playMode, playedIndicesRef. -/
structure PlayerState where
  playlist : List PlaylistItem
  currentTrackIndex : Option Nat
  isPlaying : Bool
  playMode : PlayMode
  playedIndices : List Nat
deriving DecidableEq

/-! ## URL parser (extractVideoId, source lines 77-81)

The source matches the regular expression
`^.*(?:youtu.be\/|v\/|e\/|embed\/|watch\?v=|watch\?feature=player_embedded&v=)([^#&?]*).*`
and returns the captured group when its length is exactly 11.  Because the
leading `.*` is greedy and the tail after the capture is unconstrained, the
regex succeeds at the last delimiter occurrence whose preceding characters
contain no newline ('.' does not match newlines); the capture is the maximal
following run of characters other than '#', '&', '?'.  The unescaped dot in
`youtu.be` matches any non-newline character.  The six alternatives are
pairwise exclusive at any fixed position, so alternation order is
irrelevant. -/

/-- Characters that terminate the captured group: the negated class
`[^#&?]`. -/
def stopChar (c : Char) : Bool := c == '#' || c == '&' || c == '?'

/-- Does the literal pattern p occur at the head of s? -/
def litAt : List Char → List Char → Bool
  | [], _ => true
  | _ :: _, [] => false
  | c :: p, d :: s => c == d && litAt p s

/-- Does `youtu.be/` (with its unescaped dot, matching any non-newline
character) occur at the head of s? -/
def dYoutuBe : List Char → Bool
  | 'y' :: 'o' :: 'u' :: 't' :: 'u' :: c :: 'b' :: 'e' :: '/' :: _ => c != '\n'
  | _ => false

/-- If one of the six delimiter alternatives matches at the head of s,
return its length. -/
def delimAt (s : List Char) : Option Nat :=
  if dYoutuBe s then some 9
  else if litAt (("v/").data) s then some 2
  else if litAt (("e/").data) s then some 2
  else if litAt (("embed/").data) s then some 6
  else if litAt (("watch?v=").data) s then some 8
  else if litAt (("watch?feature=player_embedded&v=").data) s then some 32
  else none

/-- The suffix immediately after the last delimiter occurrence whose prefix
is newline-free (the position the greedy `^.*` backtracks to). -/
def afterLastDelim : List Char → Option (List Char)
  | [] => none
  | c :: rest =>
    match (if c = '\n' then none else afterLastDelim rest) with
    | some r => some r
    | none =>
      match delimAt (c :: rest) with
      | some n => some (List.drop n (c :: rest))
      | none => none

/-- extractVideoId (source lines 77-81): the captured group when the regex
matches and the group has length exactly 11, otherwise null. -/
def extractVideoId (url : String) : Option String :=
  match afterLastDelim url.data with
  | none => none
  | some r =>
    let captured := r.takeWhile (fun ch => !(stopChar ch))
    if captured.length = 11 then some (String.mk captured) else none

/-! ## Sequencer operations -/

/-- selectVideo (source lines 112-123): validate the index, select it, mark
playback active; in shuffle mode reset the history to just this index.  The
JS guard `index >= 0 && index < playlist.length` is embedded with a Nat
index, where the lower bound is automatic. -/
def selectVideo (s : PlayerState) (index : Nat) : PlayerState :=
  if index < s.playlist.length then
    { s with
      currentTrackIndex := some index
      isPlaying := true
      playedIndices := if s.playMode = PlayMode.shuffle then [index] else s.playedIndices }
  else s

/-- playNext (source lines 126-153).  r is the random oracle for this call:
`Math.floor(Math.random() * k)` is embedded as `r % k`, which ranges over
exactly the values the source can draw as r ranges over Nat.  In the
exhausted-cycle branch the source resets the history to [] and then pushes
nextIndex, leaving [nextIndex]. -/
def playNext (s : PlayerState) (r : Nat) : PlayerState :=
  if s.playlist.length = 0 then s
  else if s.playMode = PlayMode.shuffle then
    let availableIndices :=
      (List.range s.playlist.length).filter (fun i => !(s.playedIndices.contains i))
    if availableIndices.length = 0 then
      let nextIndex := r % s.playlist.length
      selectVideo { s with playedIndices := [nextIndex] } nextIndex
    else
      let nextIndex := availableIndices.getD (r % availableIndices.length) 0
      selectVideo { s with playedIndices := s.playedIndices ++ [nextIndex] } nextIndex
  else
    let nextIndex := (match s.currentTrackIndex with
      | none => 0
      | some i => i + 1) % s.playlist.length
    if s.playMode = PlayMode.off ∧ nextIndex = 0 ∧ s.currentTrackIndex ≠ none
        ∧ 1 < s.playlist.length then
      { s with isPlaying := false, currentTrackIndex := none }
    else
      selectVideo s nextIndex

/-- playPrevious (source lines 156-160): with a selection, the JS value
`(currentTrackIndex - 1 + playlist.length) % playlist.length` (computed here
in Int, where it is nonnegative); with no selection, plain index 0. -/
def playPrevious (s : PlayerState) : PlayerState :=
  if s.playlist.length = 0 then s
  else
    let prevIndex : Nat :=
      match s.currentTrackIndex with
      | none => 0
      | some i => (((i : Int) - 1 + s.playlist.length) % (s.playlist.length : Int)).toNat
    selectVideo s prevIndex

/-- togglePlayMode (source lines 174-183): none -> repeat-all -> shuffle ->
none; entering shuffle clears the history. -/
def togglePlayMode (s : PlayerState) : PlayerState :=
  match s.playMode with
  | PlayMode.off => { s with playMode := PlayMode.repeatAll }
  | PlayMode.repeatAll => { s with playMode := PlayMode.shuffle, playedIndices := [] }
  | PlayMode.shuffle => { s with playMode := PlayMode.off }

/-- addVideo (source lines 84-109).  newId embeds Date.now().  Blank title
or URL, or an unextractable video id, leave the sequencing state unchanged
(only an error message is set).  Appending to an empty playlist with no
selection auto-selects index 0 and starts playback. -/
def addVideo (s : PlayerState) (newId : Nat) (url title : String) : PlayerState :=
  if url.trim = "" ∨ title.trim = "" then s
  else
    match extractVideoId url with
    | none => s
    | some youtubeId =>
      let newItem : PlaylistItem := ⟨newId, youtubeId, title.trim, url.trim⟩
      { s with
        playlist := s.playlist ++ [newItem]
        currentTrackIndex :=
          if s.playlist.length = 0 ∧ s.currentTrackIndex = none then some 0
          else s.currentTrackIndex
        isPlaying :=
          if s.playlist.length = 0 ∧ s.currentTrackIndex = none then true
          else s.isPlaying }

/-- Array.prototype.findIndex on the playlist, with none for -1. -/
def findIndexAux (p : PlaylistItem → Bool) : List PlaylistItem → Option Nat
  | [] => none
  | v :: rest => if p v then some 0 else (findIndexAux p rest).map (fun j => j + 1)

/-- removeVideo (source lines 186-215): locate the id, filter it out of the
playlist, fix up the selection per the three selected-track cases or the
before-selection shift, then drop the removed index from the shuffle history
and shift the remaining entries above it down by one. -/
def removeVideo (s : PlayerState) (idToRemove : Nat) : PlayerState :=
  match findIndexAux (fun v => v.id == idToRemove) s.playlist with
  | none => s
  | some indexToRemove =>
    let newPlaylist := s.playlist.filter (fun v => v.id != idToRemove)
    let s1 :=
      if s.currentTrackIndex = some indexToRemove then
        if newPlaylist.length = 0 then
          { s with playlist := newPlaylist, currentTrackIndex := none, isPlaying := false }
        else if indexToRemove < newPlaylist.length then
          { s with playlist := newPlaylist, currentTrackIndex := some indexToRemove,
                   isPlaying := true }
        else
          { s with playlist := newPlaylist,
                   currentTrackIndex := some (newPlaylist.length - 1), isPlaying := true }
      else
        match s.currentTrackIndex with
        | some c =>
          if indexToRemove < c then
            { s with playlist := newPlaylist, currentTrackIndex := some (c - 1) }
          else { s with playlist := newPlaylist }
        | none => { s with playlist := newPlaylist }
    { s1 with
      playedIndices :=
        (s1.playedIndices.filter (fun idx => idx != indexToRemove)).map
          (fun idx => if indexToRemove < idx then idx - 1 else idx) }

/-- k iterated calls of playNext, the k-th call drawing its random oracle
value from rs. -/
def iterNextR (rs : Nat → Nat) : Nat → PlayerState → PlayerState
  | 0, s => s
  | k + 1, s => playNext (iterNextR rs k s) (rs k)

/-! ## Persistence (source lines 41-74)

The save effect writes three independent localStorage entries:
JSON.stringify(playlist), String(currentTrackIndex) (or "" for null), and
the playMode string.  The load effect reads all three inside a single try
block: JSON.parse of a string that is not valid JSON throws before any
field is set and the catch leaves all three fields at their defaults; a
string that is valid JSON of any shape parses without throwing and the
load proceeds.

JSON.stringify of the playlist emits, with no whitespace and keys in
declaration order, an array of objects
\x7b"id":<nat>,"youtubeId":<string>,"title":<string>,"originalUrl":<string>\x7d
escaping '"', '\' and control characters.  JSON.parse is embedded below as
a parser of the full JSON grammar (numbers with fraction and exponent and
no leading zeros, strings with the exact JSON escape set, whitespace,
arrays, objects, true/false/null), returning a JSON value; none embeds the
SyntaxError throw.  The component stores the parsed value untyped; the
embedding carries its typed view (decodePlaylist) together with the JS
.length the index guard reads (jsLength) and the null case whose .length
access throws a TypeError. -/

/-- JSON.stringify's string escaping: '"' and '\' get a backslash; the
control characters with short escapes use them; other control characters
(below 0x20) become \u00XX with lowercase hex (Nat.digitChar covers
0-15). -/
def escChar (c : Char) : List Char :=
  if c = '"' then ['\\', '"']
  else if c = '\\' then ['\\', '\\']
  else if c = '\x08' then ['\\', 'b']
  else if c = '\x09' then ['\\', 't']
  else if c = '\x0a' then ['\\', 'n']
  else if c = '\x0c' then ['\\', 'f']
  else if c = '\x0d' then ['\\', 'r']
  else if c.toNat < 32 then
    ['\\', 'u', '0', '0', Nat.digitChar (c.toNat / 16), Nat.digitChar (c.toNat % 16)]
  else [c]

/-- A JSON string literal: quote, escaped characters, quote. -/
def encStr (s : String) : List Char :=
  '"' :: (s.data.map escChar).flatten ++ ['"']

/-- Little-endian decimal digits, with explicit fuel so that the kernel can
evaluate it (fuel n always suffices). -/
def natDigitsAux : Nat → Nat → List Nat
  | 0, _ => []
  | fuel + 1, n => if n = 0 then [] else n % 10 :: natDigitsAux fuel (n / 10)

/-- Little-endian decimal digits of n. -/
def natDigitsLE (n : Nat) : List Nat := natDigitsAux n n

/-- Decimal digit characters of a natural number, most significant first
(the JSON/String(n) rendering of n). -/
def natToChars (n : Nat) : List Char :=
  if n = 0 then ['0'] else ((natDigitsLE n).map Nat.digitChar).reverse

/-- String(n) for a natural number. -/
def natToString (n : Nat) : String := String.mk (natToChars n)

/-- The literal key segments of a serialized playlist item. -/
def kId : List Char := ['\x7b', '"', 'i', 'd', '"', ':']

def kYoutubeId : List Char :=
  [',', '"', 'y', 'o', 'u', 't', 'u', 'b', 'e', 'I', 'd', '"', ':']

def kTitle : List Char := [',', '"', 't', 'i', 't', 'l', 'e', '"', ':']

def kOriginalUrl : List Char :=
  [',', '"', 'o', 'r', 'i', 'g', 'i', 'n', 'a', 'l', 'U', 'r', 'l', '"', ':']

def kClose : List Char := ['\x7d']

/-- One serialized playlist item. -/
def encItem (v : PlaylistItem) : List Char :=
  kId ++ natToChars v.id
    ++ kYoutubeId ++ encStr v.youtubeId
    ++ kTitle ++ encStr v.title
    ++ kOriginalUrl ++ encStr v.originalUrl
    ++ kClose

/-- Comma-separated serialized items. -/
def encSeq : List PlaylistItem → List Char
  | [] => []
  | [v] => encItem v
  | v :: vs => encItem v ++ ',' :: encSeq vs

/-- JSON.stringify of the playlist. -/
def stringifyPlaylist (l : List PlaylistItem) : String :=
  String.mk ('[' :: encSeq l ++ [']'])

/-- Consume an expected literal from the head of the input. -/
def expectLit : List Char → List Char → Option (List Char)
  | [], s => some s
  | _ :: _, [] => none
  | c :: cs, d :: ds => if c = d then expectLit cs ds else none

/-- Value of a decimal digit character. -/
def digitVal (c : Char) : Option Nat :=
  if 48 ≤ c.toNat ∧ c.toNat ≤ 57 then some (c.toNat - 48) else none

/-- Split off the maximal run of leading decimal digits, as values. -/
def takeDigits : List Char → List Nat × List Char
  | [] => ([], [])
  | c :: rest =>
    match digitVal c with
    | some d =>
      let p := takeDigits rest
      (d :: p.1, p.2)
    | none => ([], c :: rest)

/-- The values JSON.parse can produce.  Number tokens are kept verbatim;
the component only ever reads integer ids out of them. -/
inductive Json where
  | null
  | bool (b : Bool)
  | num (tok : List Char)
  | str (s : String)
  | arr (elems : List Json)
  | obj (fields : List (String × Json))

/-- JSON whitespace: space, tab, line feed, carriage return. -/
def isJsonWs (c : Char) : Bool :=
  c == ' ' || c == '\t' || c == '\n' || c == '\r'

/-- Skip JSON whitespace. -/
def skipWs (s : List Char) : List Char := s.dropWhile isJsonWs

/-- The decoded character of a single-character JSON escape. -/
def escSimple (c : Char) : Option Char :=
  if c = '"' then some '"'
  else if c = '\\' then some '\\'
  else if c = '/' then some '/'
  else if c = 'b' then some '\x08'
  else if c = 'f' then some '\x0c'
  else if c = 'n' then some '\x0a'
  else if c = 'r' then some '\x0d'
  else if c = 't' then some '\x09'
  else none

/-- Value of a hexadecimal digit character. -/
def hexVal (c : Char) : Option Nat :=
  if 48 ≤ c.toNat ∧ c.toNat ≤ 57 then some (c.toNat - 48)
  else if 97 ≤ c.toNat ∧ c.toNat ≤ 102 then some (c.toNat - 87)
  else if 65 ≤ c.toNat ∧ c.toNat ≤ 70 then some (c.toNat - 55)
  else none

/-- One step of the JSON string body grammar: the closing quote, one
decoded character (plain, or by the exact JSON escape set: the eight
simple escapes and \uXXXX), or a syntax error (raw control character, bad
escape, end of input). -/
inductive StrStep where
  | close : List Char → StrStep
  | take : Char → List Char → StrStep
  | bad : StrStep

/-- Classify the head of a JSON string body. -/
def strStep : List Char → StrStep
  | [] => StrStep.bad
  | c :: rest =>
    if c = '"' then StrStep.close rest
    else if c = '\\' then
      match rest with
      | [] => StrStep.bad
      | e :: rest2 =>
        match escSimple e with
        | some d => StrStep.take d rest2
        | none =>
          if e = 'u' then
            match rest2 with
            | h1 :: h2 :: h3 :: h4 :: rest3 =>
              match hexVal h1, hexVal h2, hexVal h3, hexVal h4 with
              | some a, some b, some c2, some d2 =>
                StrStep.take (Char.ofNat (((a * 16 + b) * 16 + c2) * 16 + d2)) rest3
              | _, _, _, _ => StrStep.bad
            | _ => StrStep.bad
          else StrStep.bad
    else if c.toNat < 32 then StrStep.bad
    else StrStep.take c rest

/-- Body of a JSON string literal after the opening quote, by iterated
steps.  Every step consumes at least one character, so fuel = input length
always suffices, and running out of fuel coincides with the empty-input
error. -/
def parseStrSteps : Nat → List Char → Option (List Char × List Char)
  | fuel, s =>
    match fuel with
    | 0 => none
    | fuel' + 1 =>
      match strStep s with
      | StrStep.close rest => some ([], rest)
      | StrStep.take d rest2 =>
        match parseStrSteps fuel' rest2 with
        | some (acc, rem) => some (d :: acc, rem)
        | none => none
      | StrStep.bad => none

/-- Body of a JSON string literal after the opening quote: the decoded
characters and the input after the closing quote.  A \uXXXX naming a
surrogate half has no Lean scalar and reads as Char.ofNat's default; no
claim exercises one. -/
def parseJsonString (s : List Char) : Option (List Char × List Char) :=
  parseStrSteps s.length s

/-- A digit character test. -/
def isDigitChar (c : Char) : Bool := 48 ≤ c.toNat && c.toNat ≤ 57

/-- Maximal run of leading digits, kept as characters. -/
def charDigitSpan (s : List Char) : List Char × List Char :=
  (s.takeWhile isDigitChar, s.dropWhile isDigitChar)

/-- The integer part of a JSON number: a single 0, or a nonzero digit
followed by digits (JSON forbids leading zeros). -/
def parseIntPart : List Char → Option (List Char × List Char)
  | [] => none
  | c :: t =>
    if c = '0' then some (['0'], t)
    else if isDigitChar c then some (c :: (charDigitSpan t).1, (charDigitSpan t).2)
    else none

/-- The optional fraction part: '.' followed by at least one digit. -/
def parseFracPart : List Char → Option (List Char × List Char)
  | [] => some ([], [])
  | c :: t =>
    if c = '.' then
      match charDigitSpan t with
      | ([], _) => none
      | (ds, rem) => some ('.' :: ds, rem)
    else some ([], c :: t)

/-- The optional exponent part: e or E, an optional sign, digits. -/
def parseExpPart : List Char → Option (List Char × List Char)
  | [] => some ([], [])
  | c :: t =>
    if c = 'e' ∨ c = 'E' then
      let q : List Char × List Char :=
        match t with
        | [] => ([], [])
        | d :: u => if d = '+' ∨ d = '-' then ([d], u) else ([], d :: u)
      match charDigitSpan q.2 with
      | ([], _) => none
      | (ds, rem) => some (c :: q.1 ++ ds, rem)
    else some ([], c :: t)

/-- The optional leading minus of a JSON number. -/
def signSpan : List Char → List Char × List Char
  | [] => ([], [])
  | c :: t => if c = '-' then (['-'], t) else ([], c :: t)

/-- A JSON number token: optional minus, integer part, optional fraction
and exponent; the token is returned verbatim. -/
def parseNumTok (s : List Char) : Option (List Char × List Char) :=
  match parseIntPart (signSpan s).2 with
  | none => none
  | some (ip, s2) =>
    match parseFracPart s2 with
    | none => none
    | some (fp, s3) =>
      match parseExpPart s3 with
      | none => none
      | some (ep, s4) => some ((signSpan s).1 ++ ip ++ fp ++ ep, s4)

mutual

/-- One JSON value at the head of the input, leading whitespace already
skipped.  The fuel bounds the recursion; since every recursive call follows
at least one consumed character per two fuel steps, input length + 1 always
suffices for an accepted input. -/
def parseJsonVal : Nat → List Char → Option (Json × List Char)
  | 0, _ => none
  | fuel + 1, s =>
    match s with
    | [] => none
    | c :: rest =>
      if c = '"' then
        match parseJsonString rest with
        | some (cs, rem) => some (Json.str (String.mk cs), rem)
        | none => none
      else if c = '[' then
        match skipWs rest with
        | ']' :: rem => some (Json.arr [], rem)
        | s1 =>
          match parseJsonElems fuel s1 with
          | some (vs, rem) => some (Json.arr vs, rem)
          | none => none
      else if c = '\x7b' then
        match skipWs rest with
        | '\x7d' :: rem => some (Json.obj [], rem)
        | s1 =>
          match parseJsonMembers fuel s1 with
          | some (fs, rem) => some (Json.obj fs, rem)
          | none => none
      else if c = 't' then
        match expectLit (("rue").data) rest with
        | some rem => some (Json.bool true, rem)
        | none => none
      else if c = 'f' then
        match expectLit (("alse").data) rest with
        | some rem => some (Json.bool false, rem)
        | none => none
      else if c = 'n' then
        match expectLit (("ull").data) rest with
        | some rem => some (Json.null, rem)
        | none => none
      else
        match parseNumTok (c :: rest) with
        | some (tok, rem) => some (Json.num tok, rem)
        | none => none

/-- Comma-separated array elements, ending at ']'. -/
def parseJsonElems : Nat → List Char → Option (List Json × List Char)
  | 0, _ => none
  | fuel + 1, s =>
    match parseJsonVal fuel s with
    | none => none
    | some (v, rem) =>
      match skipWs rem with
      | ',' :: rem2 =>
        match parseJsonElems fuel (skipWs rem2) with
        | some (vs, rem3) => some (v :: vs, rem3)
        | none => none
      | ']' :: rem2 => some ([v], rem2)
      | _ => none

/-- Comma-separated object members (string key, colon, value), ending at
the closing brace. -/
def parseJsonMembers : Nat → List Char → Option (List (String × Json) × List Char)
  | 0, _ => none
  | fuel + 1, s =>
    match s with
    | '"' :: rest =>
      match parseJsonString rest with
      | none => none
      | some (k, rem) =>
        match skipWs rem with
        | ':' :: rem2 =>
          match parseJsonVal fuel (skipWs rem2) with
          | none => none
          | some (v, rem3) =>
            match skipWs rem3 with
            | ',' :: rem4 =>
              match parseJsonMembers fuel (skipWs rem4) with
              | some (fs, rem5) => some ((String.mk k, v) :: fs, rem5)
              | none => none
            | '\x7d' :: rem4 => some ([(String.mk k, v)], rem4)
            | _ => none
        | _ => none
    | _ => none

end

/-- JSON.parse: one JSON value surrounded only by whitespace; none embeds
the SyntaxError throw. -/
def parseJsonValue (s : String) : Option Json :=
  match parseJsonVal (s.length + 1) (skipWs s.data) with
  | some (v, rem) => if skipWs rem = [] then some v else none
  | none => none

/-- Property lookup on a parsed JSON object: JSON.parse keeps the last
duplicate key, so the lookup scans from the end. -/
def jGet (fields : List (String × Json)) (k : String) : Option Json :=
  (fields.reverse.find? (fun f => f.1 == k)).map (fun f => f.2)

/-- The integer value of a pure digit-run number token (the only number
shape the component itself writes); other tokens read as 0 in the typed
view. -/
def numTokNat (tok : List Char) : Nat :=
  match takeDigits tok with
  | (ds, []) => if ds = [] then 0 else Nat.ofDigits 10 ds.reverse
  | _ => 0

/-- The typed reading of one parsed playlist entry, through the fields id,
youtubeId, title, originalUrl that the component reads; values of other
shapes read as defaults in the typed view. -/
def decodeItem : Json → PlaylistItem
  | Json.obj fs =>
    ⟨(match jGet fs ("id") with | some (Json.num tok) => numTokNat tok | _ => 0),
     (match jGet fs ("youtubeId") with | some (Json.str s) => s | _ => ""),
     (match jGet fs ("title") with | some (Json.str s) => s | _ => ""),
     (match jGet fs ("originalUrl") with | some (Json.str s) => s | _ => "")⟩
  | _ => ⟨0, "", "", ""⟩

/-- The typed view of the value setPlaylist receives: an array maps
element-wise, preserving the JS array length; a non-array value lies
outside the typed playlist state and views as empty. -/
def decodePlaylist : Json → List PlaylistItem
  | Json.arr es => es.map decodeItem
  | _ => []

/-- The JS .length the index guard reads off the parsed value: the element
count of an array; other values read as undefined (none), making the guard
false.  (A JSON string also carries a JS .length; a string-valued playlist
lies outside the typed state this embedding carries, and no claim
exercises one.) -/
def jsLength : Json → Option Nat
  | Json.arr es => some es.length
  | _ => none

/-- Is the parsed value null?  Reading .length off null throws a TypeError
inside the try block. -/
def isJsNull : Json → Bool
  | Json.null => true
  | _ => false

/-- The serialized form of a playlist item, as JSON.parse reads back what
JSON.stringify wrote. -/
def itemJson (v : PlaylistItem) : Json :=
  Json.obj [(("id" : String), Json.num (natToChars v.id)),
            (("youtubeId" : String), Json.str v.youtubeId),
            (("title" : String), Json.str v.title),
            (("originalUrl" : String), Json.str v.originalUrl)]

/-- The serialized form of a playlist. -/
def playlistJson (l : List PlaylistItem) : Json := Json.arr (l.map itemJson)

/-- The whitespace Number.parseInt skips before the number (the common
ECMAScript white space and line terminators). -/
def isJsSpace (c : Char) : Bool :=
  c == ' ' || c == '\t' || c == '\n' || c == '\r' || c == '\x0b' || c == '\x0c'
    || c == '\xa0' || c == '\uFEFF' || c == '\u2028' || c == '\u2029'

/-- Number.parseInt(s, 10): leading whitespace, an optional sign, then a
maximal nonempty digit run; none embeds NaN. -/
def parseIntOpt (s : String) : Option Int :=
  match s.data.dropWhile isJsSpace with
  | [] => none
  | c :: rest =>
    if c = '-' then
      match takeDigits rest with
      | ([], _) => none
      | (ds, _) => some (-(Nat.ofDigits 10 ds.reverse : Int))
    else if c = '+' then
      match takeDigits rest with
      | ([], _) => none
      | (ds, _) => some ((Nat.ofDigits 10 ds.reverse : Int))
    else
      match takeDigits (c :: rest) with
      | ([], _) => none
      | (ds, _) => some ((Nat.ofDigits 10 ds.reverse : Int))

/-- JS string truthiness of a localStorage read: present and nonempty. -/
def truthy : Option String → Bool
  | none => false
  | some s => decide (s ≠ "")

/-- The three localStorage entries, none for an absent key. -/
structure Store where
  playlistStr : Option String
  indexStr : Option String
  modeStr : Option String
deriving DecidableEq

/-- The state produced by the load effect. -/
structure LoadedState where
  playlist : List PlaylistItem
  currentTrackIndex : Option Nat
  playMode : PlayMode
deriving DecidableEq

/-- The defaults: empty playlist, no selection, mode "none". -/
def defaultLoaded : LoadedState := ⟨[], none, PlayMode.off⟩

/-- The play-mode string written by the save effect. -/
def modeString : PlayMode → String
  | PlayMode.off => "none"
  | PlayMode.repeatAll => "repeat-all"
  | PlayMode.shuffle => "shuffle"

/-- The mode branch of the load effect (source lines 56-59): accept only
the three known strings, otherwise keep the default. -/
def loadMode : Option String → PlayMode
  | none => PlayMode.off
  | some s =>
    if s = "none" then PlayMode.off
    else if s = "repeat-all" then PlayMode.repeatAll
    else if s = "shuffle" then PlayMode.shuffle
    else PlayMode.off

/-- The index branch of the load effect (source lines 48-54), with the
parsed playlist value at hand: Number.parseInt, then the guard
`!isNaN(index) && index >= 0 && (savedPlaylist ? parsed.length > index : false)`.
The outer none embeds the TypeError thrown when the guard reads .length
off a parsed null; some carries the position the effect settles on. -/
def loadIndexE (savedPlaylistTruthy : Bool) (v : Json) :
    Option String → Option (Option Nat)
  | none => some none
  | some savedIndex =>
    match parseIntOpt savedIndex with
    | none => some none
    | some index =>
      if 0 ≤ index then
        if savedPlaylistTruthy then
          if isJsNull v then none
          else
            match jsLength v with
            | some len => if index < (len : Int) then some (some index.toNat) else some none
            | none => some none
        else some none
      else some none

/-- The load effect (source lines 41-63).  All three reads run in one try
block.  JSON.parse of a string that is not valid JSON throws before any
field is set, so the catch leaves every field at its default.  When the
parse succeeds the playlist is set first; a parsed null then makes the
index guard's .length access throw a TypeError, losing index and mode but
keeping the already-set playlist.  When the playlist entry is absent or
empty, the guard short-circuits to false and the index stays none. -/
def loadState (st : Store) : LoadedState :=
  let savedPlaylist := st.playlistStr
  if truthy savedPlaylist then
    match parseJsonValue (savedPlaylist.getD "") with
    | none => defaultLoaded
    | some v =>
      match loadIndexE true v st.indexStr with
      | none => ⟨decodePlaylist v, none, PlayMode.off⟩
      | some idx => ⟨decodePlaylist v, idx, loadMode st.modeStr⟩
  else ⟨[], none, loadMode st.modeStr⟩

/-- The save effect (source lines 66-74): three independent writes. -/
def saveState (pl : List PlaylistItem) (idx : Option Nat) (m : PlayMode) : Store :=
  ⟨some (stringifyPlaylist pl),
   some (match idx with | some i => natToString i | none => ""),
   some (modeString m)⟩

/-- Per-field view of the load result: the playlist as its own stored
field loads it (typed view of the parsed value). -/
def loadPlaylistField (ps : Option String) : List PlaylistItem :=
  if truthy ps then
    match parseJsonValue (ps.getD "") with
    | some v => decodePlaylist v
    | none => []
  else []

/-- Per-field view of the load result: the .length the index guard
compares against. -/
def jsLengthField (ps : Option String) : Option Nat :=
  if truthy ps then
    match parseJsonValue (ps.getD "") with
    | some v => jsLength v
    | none => none
  else none

/-- Per-field view of the load result: the index field, validated against
the stored playlist's .length. -/
def loadIndexField (ps ixs : Option String) : Option Nat :=
  match ixs with
  | none => none
  | some savedIndex =>
    match parseIntOpt savedIndex with
    | none => none
    | some index =>
      if 0 ≤ index ∧ truthy ps = true then
        match jsLengthField ps with
        | some len => if index < (len : Int) then some index.toNat else none
        | none => none
      else none

/-- Per-field view of the load result: the mode field. -/
def loadModeField (ms : Option String) : PlayMode := loadMode ms

/-- The playback-position invariant: the selection, when present, indexes
into the playlist. -/
def posValid (s : PlayerState) : Prop :=
  ∀ i, s.currentTrackIndex = some i → i < s.playlist.length

/-- The recognized delimiter shapes of the URL regex: the five literal
alternatives plus youtu.be/ with its unescaped dot standing for an
arbitrary non-newline character. -/
def DelimForm (d : List Char) : Prop :=
  d = ("v/").data ∨ d = ("e/").data ∨ d = ("embed/").data ∨ d = ("watch?v=").data ∨
    d = ("watch?feature=player_embedded&v=").data ∨
    ∃ c, c ≠ '\n' ∧ d = ['y', 'o', 'u', 't', 'u', c, 'b', 'e', '/']

/-- The input does not begin with a decimal digit. -/
def noDigitHead : List Char → Prop
  | [] => True
  | c :: _ => digitVal c = none

/-- The input cannot extend a JSON number token: it is empty or starts
with no digit, dot, or exponent letter. -/
def numBoundary : List Char → Prop
  | [] => True
  | c :: _ => digitVal c = none ∧ c ≠ '.' ∧ c ≠ 'e' ∧ c ≠ 'E'

/-! ## Lemmas about selectVideo, playNext, and playPrevious -/

theorem selectVideo_of_lt (s : PlayerState) (i : Nat) (h : i < s.playlist.length) :
    selectVideo s i =
      { s with
        currentTrackIndex := some i
        isPlaying := true
        playedIndices := if s.playMode = PlayMode.shuffle then [i] else s.playedIndices } := by
  simp [selectVideo, h]

theorem posValid_selectVideo (s : PlayerState) (i : Nat) (hv : posValid s) :
    posValid (selectVideo s i) := by
  unfold selectVideo
  split
  · intro j hj
    simp only [Option.some.injEq] at hj
    simpa [← hj] using ‹i < s.playlist.length›
  · exact hv

theorem playNext_off_mid (s : PlayerState) (i r : Nat) (hm : s.playMode = PlayMode.off)
    (hc : s.currentTrackIndex = some i) (hi : i + 1 < s.playlist.length) :
    playNext s r = { s with currentTrackIndex := some (i + 1), isPlaying := true } := by
  have hL : ¬ s.playlist.length = 0 := by omega
  have hmod : (i + 1) % s.playlist.length = i + 1 := Nat.mod_eq_of_lt hi
  simp [playNext, hm, hc, hL, hmod, selectVideo, hi]

theorem playNext_off_halt (s : PlayerState) (i r : Nat) (hm : s.playMode = PlayMode.off)
    (hc : s.currentTrackIndex = some i) (hi : i + 1 = s.playlist.length)
    (h1 : 1 < s.playlist.length) :
    playNext s r = { s with isPlaying := false, currentTrackIndex := none } := by
  have hL : ¬ s.playlist.length = 0 := by omega
  have hmod : (i + 1) % s.playlist.length = 0 := by rw [hi]; exact Nat.mod_self _
  simp [playNext, hm, hc, hL, hmod, h1]

theorem playNext_repeat_step (s : PlayerState) (i r : Nat)
    (hm : s.playMode = PlayMode.repeatAll) (hc : s.currentTrackIndex = some i)
    (h0 : 0 < s.playlist.length) :
    playNext s r =
      { s with currentTrackIndex := some ((i + 1) % s.playlist.length), isPlaying := true } := by
  have hL : ¬ s.playlist.length = 0 := by omega
  have hlt : (i + 1) % s.playlist.length < s.playlist.length := Nat.mod_lt _ h0
  simp [playNext, hm, hc, hL, selectVideo, hlt]

/-- Off mode, k+1 advances from a selection that stays strictly inside the
playlist: the position slides forward by k+1. -/
theorem iterNextR_off (rs : Nat → Nat) (k : Nat) :
    ∀ (s : PlayerState) (i : Nat), s.playMode = PlayMode.off →
      s.currentTrackIndex = some i → i + (k + 1) < s.playlist.length →
      iterNextR rs (k + 1) s =
        { s with currentTrackIndex := some (i + (k + 1)), isPlaying := true } := by
  induction k with
  | zero =>
    intro s i hm hc hi
    simpa [iterNextR] using playNext_off_mid s i (rs 0) hm hc (by omega)
  | succ k ih =>
    intro s i hm hc hi
    have hmid := ih s i hm hc (by omega)
    have hstep :=
      playNext_off_mid { s with currentTrackIndex := some (i + (k + 1)), isPlaying := true }
        (i + (k + 1)) (rs (k + 1)) hm rfl
        (show i + (k + 1) + 1 < s.playlist.length by omega)
    calc iterNextR rs (k + 2) s
        = playNext (iterNextR rs (k + 1) s) (rs (k + 1)) := rfl
      _ = { s with currentTrackIndex := some (i + (k + 2)), isPlaying := true } := by
          rw [hmid, hstep]
          rfl

/-- RepeatAll mode, k+1 advances from a selection: the position moves to
(i + k + 1) mod length. -/
theorem iterNextR_repeat (rs : Nat → Nat) (k : Nat) :
    ∀ (s : PlayerState) (i : Nat), s.playMode = PlayMode.repeatAll →
      s.currentTrackIndex = some i → 0 < s.playlist.length →
      iterNextR rs (k + 1) s =
        { s with currentTrackIndex := some ((i + (k + 1)) % s.playlist.length),
                 isPlaying := true } := by
  induction k with
  | zero =>
    intro s i hm hc h0
    simpa [iterNextR] using playNext_repeat_step s i (rs 0) hm hc h0
  | succ k ih =>
    intro s i hm hc h0
    have hmid := ih s i hm hc h0
    have hstep :=
      playNext_repeat_step
        { s with currentTrackIndex := some ((i + (k + 1)) % s.playlist.length),
                 isPlaying := true }
        ((i + (k + 1)) % s.playlist.length) (rs (k + 1)) hm rfl
        (show 0 < s.playlist.length from h0)
    calc iterNextR rs (k + 2) s
        = playNext (iterNextR rs (k + 1) s) (rs (k + 1)) := rfl
      _ = { s with currentTrackIndex := some ((i + (k + 2)) % s.playlist.length),
                   isPlaying := true } := by
          rw [hmid, hstep]
          simp [Nat.mod_add_mod, Nat.add_assoc]

/-- Any shuffle-mode advance on a nonempty playlist selects some in-range
index j, marks playback active, and leaves the history equal to [j]: the
push inside playNext is immediately overwritten by the reset inside
selectVideo. -/
theorem playNext_shuffle_shape (s : PlayerState) (r : Nat)
    (hm : s.playMode = PlayMode.shuffle) (hL : s.playlist.length ≠ 0) :
    ∃ j, j < s.playlist.length ∧
      playNext s r =
        { s with currentTrackIndex := some j, isPlaying := true, playedIndices := [j] } := by
  have hpos : 0 < s.playlist.length := Nat.pos_of_ne_zero hL
  unfold playNext
  rw [if_neg hL, if_pos hm]
  dsimp only
  by_cases h0 :
      ((List.range s.playlist.length).filter (fun i => !(s.playedIndices.contains i))).length = 0
  · rw [if_pos h0]
    refine ⟨r % s.playlist.length, Nat.mod_lt _ hpos, ?_⟩
    simp [selectVideo, hm, Nat.mod_lt _ hpos]
  · rw [if_neg h0]
    set avail := (List.range s.playlist.length).filter (fun i => !(s.playedIndices.contains i))
      with havail
    have hlt : r % avail.length < avail.length := Nat.mod_lt _ (Nat.pos_of_ne_zero h0)
    have hmem : avail.getD (r % avail.length) 0 ∈ avail := by
      rw [List.getD_eq_getElem _ _ hlt]
      exact List.getElem_mem _
    have hj : avail.getD (r % avail.length) 0 < s.playlist.length := by
      rw [havail] at hmem
      have hm2 := (List.mem_filter.mp hmem).1
      exact List.mem_range.mp hm2
    have hj2 : avail[r % avail.length]?.getD 0 < s.playlist.length := by simpa using hj
    refine ⟨avail.getD (r % avail.length) 0, hj, ?_⟩
    simp [selectVideo, hm, hj, hj2]

/-- A repeat-all advance never clears the selection. -/
theorem playNext_repeat_never_none (s : PlayerState) (r : Nat)
    (hm : s.playMode = PlayMode.repeatAll) :
    (playNext s r).currentTrackIndex = none → s.currentTrackIndex = none := by
  by_cases hL : s.playlist.length = 0
  · simp [playNext, hL]
  · cases hc : s.currentTrackIndex with
    | none => intro _; rfl
    | some i =>
      rw [playNext_repeat_step s i r hm hc (Nat.pos_of_ne_zero hL)]
      intro h
      simp at h

theorem posValid_playNext (s : PlayerState) (r : Nat) (hv : posValid s) :
    posValid (playNext s r) := by
  by_cases hL : s.playlist.length = 0
  · simpa [playNext, hL] using hv
  · by_cases hm : s.playMode = PlayMode.shuffle
    · obtain ⟨j, hj, heq⟩ := playNext_shuffle_shape s r hm hL
      rw [heq]
      intro i hi
      simp only [Option.some.injEq] at hi
      simpa [← hi] using hj
    · unfold playNext
      rw [if_neg hL, if_neg hm]
      dsimp only
      split
      · intro i hi
        simp at hi
      · exact posValid_selectVideo _ _ hv

theorem posValid_playPrevious (s : PlayerState) (hv : posValid s) :
    posValid (playPrevious s) := by
  unfold playPrevious
  split
  · exact hv
  · exact posValid_selectVideo _ _ hv

theorem playPrevious_mode_independent (s : PlayerState) (m : PlayMode) :
    (playPrevious { s with playMode := m }).currentTrackIndex =
        (playPrevious s).currentTrackIndex ∧
      (playPrevious { s with playMode := m }).isPlaying = (playPrevious s).isPlaying ∧
      (playPrevious { s with playMode := m }).playlist = (playPrevious s).playlist := by
  by_cases hL : s.playlist.length = 0
  · simp [playPrevious, hL]
  · cases hc : s.currentTrackIndex with
    | none =>
      have h0 : 0 < s.playlist.length := Nat.pos_of_ne_zero hL
      simp [playPrevious, hc, hL, selectVideo, h0]
    | some i =>
      have h0 : (0 : Int) < (s.playlist.length : Int) := by
        exact_mod_cast Nat.pos_of_ne_zero hL
      have h1 : 0 ≤ ((i : Int) - 1) % (s.playlist.length : Int) :=
        Int.emod_nonneg _ (by omega)
      have h2 : ((i : Int) - 1) % (s.playlist.length : Int) < (s.playlist.length : Int) :=
        Int.emod_lt_of_pos _ h0
      have h3 : (((i : Int) - 1) % (s.playlist.length : Int)).toNat < s.playlist.length := by
        omega
      simp [playPrevious, hc, hL, selectVideo, h3]

/-! ## Lemmas about findIndexAux and removeVideo -/

theorem findIndexAux_lt (p : PlaylistItem → Bool) :
    ∀ (l : List PlaylistItem) (i : Nat), findIndexAux p l = some i → i < l.length := by
  intro l
  induction l with
  | nil => intro i h; simp [findIndexAux] at h
  | cons v rest ih =>
    intro i h
    by_cases hp : p v
    · simp [findIndexAux, hp] at h
      simp [← h]
    · simp [findIndexAux, hp] at h
      obtain ⟨j, hj, hji⟩ := h
      have := ih j hj
      simp
      omega

/-- With pairwise-distinct ids, removing an id found at index i filters out
exactly the element at i. -/
theorem filter_found_eq (idR : Nat) :
    ∀ (l : List PlaylistItem) (i : Nat),
      findIndexAux (fun v => v.id == idR) l = some i →
      l.Pairwise (fun a b => a.id ≠ b.id) →
      l.filter (fun v => v.id != idR) = l.take i ++ l.drop (i + 1) := by
  intro l
  induction l with
  | nil => intro i h _; simp [findIndexAux] at h
  | cons v rest ih =>
    intro i h hp
    by_cases hv : v.id == idR
    · simp [findIndexAux, hv] at h
      have hvid : v.id = idR := by simpa using hv
      have hrest : rest.filter (fun w => w.id != idR) = rest := by
        apply List.filter_eq_self.mpr
        intro w hw
        have hne : v.id ≠ w.id := (List.pairwise_cons.mp hp).1 w hw
        simp only [bne_iff_ne]
        omega
      simp [← h, List.filter_cons, hv, hvid, hrest]
    · simp [findIndexAux, hv] at h
      obtain ⟨j, hj, hji⟩ := h
      have hvne : v.id ≠ idR := by simpa using hv
      have hrest := ih j hj (List.pairwise_cons.mp hp).2
      subst hji
      simp [List.filter_cons, hv, hvne, hrest]

theorem filter_found_length (idR : Nat) (l : List PlaylistItem) (i : Nat)
    (hfi : findIndexAux (fun v => v.id == idR) l = some i)
    (hu : l.Pairwise (fun a b => a.id ≠ b.id)) :
    (l.filter (fun v => v.id != idR)).length = l.length - 1 := by
  have hi := findIndexAux_lt _ l i hfi
  rw [filter_found_eq idR l i hfi hu]
  simp [List.length_take, List.length_drop]
  omega

theorem posValid_removeVideo (s : PlayerState) (rid : Nat) (hv : posValid s)
    (hu : s.playlist.Pairwise (fun a b => a.id ≠ b.id)) :
    posValid (removeVideo s rid) := by
  unfold removeVideo
  cases hfi : findIndexAux (fun v => v.id == rid) s.playlist with
  | none => exact hv
  | some i =>
    dsimp only
    have hi := findIndexAux_lt _ s.playlist i hfi
    have hlen := filter_found_length rid s.playlist i hfi hu
    by_cases hsel : s.currentTrackIndex = some i
    · rw [if_pos hsel]
      by_cases h0 : (s.playlist.filter (fun v => v.id != rid)).length = 0
      · rw [if_pos h0]
        intro j hj
        simp at hj
      · rw [if_neg h0]
        by_cases hlt : i < (s.playlist.filter (fun v => v.id != rid)).length
        · rw [if_pos hlt]
          intro j hj
          simp only [Option.some.injEq] at hj
          simpa [← hj] using hlt
        · rw [if_neg hlt]
          intro j hj
          simp only [Option.some.injEq] at hj
          simp [← hj]
          omega
    · rw [if_neg hsel]
      cases hc : s.currentTrackIndex with
      | none =>
        intro j hj
        simp at hj
      | some c =>
        have hcl := hv c hc
        have hci : c ≠ i := by
          intro hh
          exact hsel (by rw [hc, hh])
        dsimp only
        by_cases hic : i < c
        · rw [if_pos hic]
          intro j hj
          simp only [Option.some.injEq] at hj
          simp [← hj, hlen]
          omega
        · rw [if_neg hic]
          intro j hj
          simp only [Option.some.injEq] at hj
          simp [← hj, hlen]
          omega

/-! ## Lemmas about the decimal codec -/

theorem natDigitsAux_eq : ∀ fuel n : Nat, n ≤ fuel → natDigitsAux fuel n = Nat.digits 10 n := by
  intro fuel
  induction fuel with
  | zero =>
    intro n h
    interval_cases n
    simp [natDigitsAux]
  | succ fuel ih =>
    intro n h
    by_cases h0 : n = 0
    · simp [natDigitsAux, h0]
    · have hlt : n / 10 < n := Nat.div_lt_self (Nat.pos_of_ne_zero h0) (by norm_num)
      rw [natDigitsAux, if_neg h0, ih (n / 10) (by omega),
        Nat.digits_def' (by norm_num : 1 < 10) (Nat.pos_of_ne_zero h0)]

theorem natDigitsLE_eq (n : Nat) : natDigitsLE n = Nat.digits 10 n :=
  natDigitsAux_eq n n le_rfl

theorem digitVal_digitChar (d : Nat) (hd : d < 10) : digitVal (Nat.digitChar d) = some d := by
  interval_cases d <;> decide

theorem digitChar_ne_dash (d : Nat) (hd : d < 10) : Nat.digitChar d ≠ '-' := by
  interval_cases d <;> decide

theorem takeDigits_of_noDigitHead (s : List Char) (h : noDigitHead s) :
    takeDigits s = ([], s) := by
  cases s with
  | nil => rfl
  | cons c rest =>
    have hc : digitVal c = none := h
    simp [takeDigits, hc]

theorem takeDigits_digits_append (ds : List Nat) (h : ∀ d ∈ ds, d < 10) (rest : List Char)
    (hr : noDigitHead rest) :
    takeDigits (ds.map Nat.digitChar ++ rest) = (ds, rest) := by
  induction ds with
  | nil => simpa using takeDigits_of_noDigitHead rest hr
  | cons d ds ih =>
    have hd : d < 10 := h d (by simp)
    have htail := ih (fun x hx => h x (by simp [hx]))
    simp [takeDigits, digitVal_digitChar d hd, htail]

theorem natToChars_eq_map (n : Nat) :
    ∃ ds : List Nat, (∀ d ∈ ds, d < 10) ∧ ds ≠ [] ∧
      natToChars n = ds.map Nat.digitChar ∧ Nat.ofDigits 10 ds.reverse = n := by
  by_cases h0 : n = 0
  · exact ⟨[0], by simp, by simp, by subst h0; decide, by simp [Nat.ofDigits, h0]⟩
  · refine ⟨(Nat.digits 10 n).reverse, ?_, ?_, ?_, ?_⟩
    · intro d hd
      exact Nat.digits_lt_base (by norm_num) (List.mem_reverse.mp hd)
    · simp [Nat.digits_ne_nil_iff_ne_zero, h0]
    · rw [natToChars, if_neg h0, natDigitsLE_eq, List.map_reverse]
    · rw [List.reverse_reverse]
      exact Nat.ofDigits_digits 10 n

/-! ## Lemmas about the JSON codec and the persistence layer -/

theorem expectLit_append (p s : List Char) : expectLit p (p ++ s) = some s := by
  induction p with
  | nil => rfl
  | cons c cs ih => simp [expectLit, ih]

theorem natToChars_ne_nil (n : Nat) : natToChars n ≠ [] := by
  obtain ⟨ds, _, hne, hmap, _⟩ := natToChars_eq_map n
  rw [hmap]
  simpa using hne

theorem natToChars_all_digit (n : Nat) :
    ∀ c ∈ natToChars n, ∃ d, d < 10 ∧ c = Nat.digitChar d := by
  obtain ⟨ds, hlt, _, hmap, _⟩ := natToChars_eq_map n
  rw [hmap]
  intro c hc
  obtain ⟨d, hd, rfl⟩ := List.mem_map.mp hc
  exact ⟨d, hlt d hd, rfl⟩

theorem digitChar_facts (d : Nat) (hd : d < 10) :
    isDigitChar (Nat.digitChar d) = true ∧ isJsonWs (Nat.digitChar d) = false ∧
      isJsSpace (Nat.digitChar d) = false ∧ digitVal (Nat.digitChar d) = some d ∧
      Nat.digitChar d ≠ '-' ∧ Nat.digitChar d ≠ '+' ∧ Nat.digitChar d ≠ '"' ∧
      Nat.digitChar d ≠ '[' ∧ Nat.digitChar d ≠ '\x7b' ∧ Nat.digitChar d ≠ 't' ∧
      Nat.digitChar d ≠ 'f' ∧ Nat.digitChar d ≠ 'n' ∧ (d ≠ 0 → Nat.digitChar d ≠ '0') := by
  interval_cases d <;> refine ⟨by decide, by decide, by decide, by decide, by decide,
    by decide, by decide, by decide, by decide, by decide, by decide, by decide, by decide⟩

theorem hexVal_digitChar (m : Nat) (hm : m < 16) : hexVal (Nat.digitChar m) = some m := by
  interval_cases m <;> decide

theorem skipWs_cons (c : Char) (l : List Char) (h : isJsonWs c = false) :
    skipWs (c :: l) = c :: l := by
  simp [skipWs, List.dropWhile_cons, h]

theorem strStep_escChar (c : Char) (T : List Char) :
    strStep (escChar c ++ T) = StrStep.take c T := by
  by_cases h1 : c = '"'
  · subst h1; rfl
  by_cases h2 : c = '\\'
  · subst h2; rfl
  by_cases h3 : c = '\x08'
  · subst h3; rfl
  by_cases h4 : c = '\x09'
  · subst h4; rfl
  by_cases h5 : c = '\x0a'
  · subst h5; rfl
  by_cases h6 : c = '\x0c'
  · subst h6; rfl
  by_cases h7 : c = '\x0d'
  · subst h7; rfl
  by_cases h8 : c.toNat < 32
  · have hesc : escChar c =
        ['\\', 'u', '0', '0', Nat.digitChar (c.toNat / 16), Nat.digitChar (c.toNat % 16)] := by
      rw [escChar, if_neg h1, if_neg h2, if_neg h3, if_neg h4, if_neg h5, if_neg h6,
        if_neg h7, if_pos h8]
    have e1 : hexVal (Nat.digitChar (c.toNat / 16)) = some (c.toNat / 16) :=
      hexVal_digitChar _ (by omega)
    have e2 : hexVal (Nat.digitChar (c.toNat % 16)) = some (c.toNat % 16) :=
      hexVal_digitChar _ (Nat.mod_lt _ (by norm_num))
    have hch : Char.ofNat (c.toNat / 16 * 16 + c.toNat % 16) = c := by
      have harith : c.toNat / 16 * 16 + c.toNat % 16 = c.toNat := by omega
      rw [harith, Char.ofNat_toNat]
    have e0 : hexVal '0' = some 0 := by decide
    rw [hesc]
    simp [strStep, escSimple, e0, e1, e2, hch]
  · have hesc : escChar c = [c] := by
      rw [escChar, if_neg h1, if_neg h2, if_neg h3, if_neg h4, if_neg h5, if_neg h6,
        if_neg h7, if_neg h8]
    rw [hesc]
    simp [strStep, h1, h2, h8]

theorem parseStrSteps_take (fuel : Nat) (c : Char) (S T acc rem : List Char)
    (hs : strStep S = StrStep.take c T) (h : parseStrSteps fuel T = some (acc, rem)) :
    parseStrSteps (fuel + 1) S = some (c :: acc, rem) := by
  show (match strStep S with
    | StrStep.close rest => some (([] : List Char), rest)
    | StrStep.take d rest2 =>
      match parseStrSteps fuel rest2 with
      | some (acc, rem) => some (d :: acc, rem)
      | none => none
    | StrStep.bad => none) = some (c :: acc, rem)
  rw [hs]
  show (match parseStrSteps fuel T with
    | some (acc, rem) => some (c :: acc, rem)
    | none => none) = some (c :: acc, rem)
  rw [h]

theorem parseStrSteps_enc (cs rest : List Char) :
    ∀ fuel : Nat, cs.length + 1 ≤ fuel →
      parseStrSteps fuel ((cs.map escChar).flatten ++ '"' :: rest) = some (cs, rest) := by
  induction cs with
  | nil =>
    intro fuel hf
    obtain ⟨f, rfl⟩ : ∃ f, fuel = f + 1 := ⟨fuel - 1, by omega⟩
    rfl
  | cons c cs ih =>
    intro fuel hf
    obtain ⟨f, rfl⟩ : ∃ f, fuel = f + 1 := ⟨fuel - 1, by simp at hf; omega⟩
    simp only [List.map_cons, List.flatten_cons, List.append_assoc]
    exact parseStrSteps_take f c _ _ cs rest (strStep_escChar c _)
      (ih f (by simp at hf ⊢; omega))

theorem escChar_length_pos (c : Char) : 1 ≤ (escChar c).length := by
  rw [escChar]
  split_ifs <;> simp

theorem flatten_escChar_length (cs : List Char) :
    cs.length ≤ ((cs.map escChar).flatten).length := by
  induction cs with
  | nil => simp
  | cons c cs ih =>
    simp only [List.map_cons, List.flatten_cons, List.length_append, List.length_cons]
    have := escChar_length_pos c
    omega

theorem parseJsonString_enc (cs rest : List Char) :
    parseJsonString ((cs.map escChar).flatten ++ '"' :: rest) = some (cs, rest) := by
  rw [parseJsonString]
  apply parseStrSteps_enc
  have := flatten_escChar_length cs
  simp only [List.length_append, List.length_cons]
  omega


theorem isDigitChar_eq_false (c : Char) (h : digitVal c = none) : isDigitChar c = false := by
  by_cases h48 : 48 ≤ c.toNat
  · by_cases h57 : c.toNat ≤ 57
    · rw [digitVal, if_pos ⟨h48, h57⟩] at h
      cases h
    · simp [isDigitChar, h57]
  · simp [isDigitChar, h48]

theorem charDigitSpan_append (ds : List Nat) (h : ∀ d ∈ ds, d < 10) (rest : List Char)
    (hr : noDigitHead rest) :
    charDigitSpan (ds.map Nat.digitChar ++ rest) = (ds.map Nat.digitChar, rest) := by
  induction ds with
  | nil =>
    simp only [List.map_nil, List.nil_append]
    cases rest with
    | nil => rfl
    | cons c t =>
      have hc : isDigitChar c = false := isDigitChar_eq_false c hr
      simp [charDigitSpan, List.takeWhile_cons, List.dropWhile_cons, hc]
  | cons d ds ih =>
    have hd := digitChar_facts d (h d (List.mem_cons_self d ds))
    have ih2 := ih (fun e he => h e (List.mem_cons_of_mem d he))
    simp only [charDigitSpan, Prod.mk.injEq] at ih2 ⊢
    simp only [List.map_cons, List.cons_append, List.takeWhile_cons, List.dropWhile_cons,
      hd.1, if_true]
    exact ⟨by rw [ih2.1], ih2.2⟩

theorem parseIntPart_natToChars (n : Nat) (rest : List Char) (hr : noDigitHead rest) :
    parseIntPart (natToChars n ++ rest) = some (natToChars n, rest) := by
  by_cases h0 : n = 0
  · subst h0
    show parseIntPart ('0' :: rest) = some (['0'], rest)
    simp [parseIntPart]
  · have hrev : natToChars n = ((Nat.digits 10 n).reverse).map Nat.digitChar := by
      rw [natToChars, if_neg h0, natDigitsLE_eq, List.map_reverse]
    have hdnil : Nat.digits 10 n ≠ [] := by
      simp [Nat.digits_ne_nil_iff_ne_zero, h0]
    obtain ⟨d, ds', hds⟩ := List.exists_cons_of_ne_nil
      (List.reverse_ne_nil_iff.mpr hdnil)
    have hdig_eq : Nat.digits 10 n = ds'.reverse ++ [d] := by
      rw [← List.reverse_reverse (Nat.digits 10 n), hds]
      simp
    have hd10 : d < 10 :=
      Nat.digits_lt_base (by norm_num)
        (show d ∈ Nat.digits 10 n by rw [hdig_eq]; simp)
    have hds10 : ∀ e ∈ ds', e < 10 := by
      intro e he
      refine Nat.digits_lt_base (by norm_num)
        (show e ∈ Nat.digits 10 n by
          rw [hdig_eq]
          simp only [List.mem_append, List.mem_reverse]
          exact Or.inl he)
    have hd0 : d ≠ 0 := by
      have h1 := Nat.getLast_digit_ne_zero 10 h0
      have h2 : (Nat.digits 10 n).getLast? = some d := by
        rw [hdig_eq]
        simp [List.getLast?_concat]
      rw [List.getLast?_eq_getLast _ hdnil] at h2
      rw [Option.some_inj] at h2
      intro hcon
      exact h1 (h2.trans hcon)
    have hface := digitChar_facts d hd10
    have hne0 : Nat.digitChar d ≠ '0' := hface.2.2.2.2.2.2.2.2.2.2.2.2 hd0
    have hspan := charDigitSpan_append ds' hds10 rest hr
    rw [hrev, hds]
    simp only [List.map_cons, List.cons_append]
    rw [parseIntPart]
    rw [if_neg hne0, if_pos hface.1]
    rw [hspan]

theorem numBoundary_noDigitHead (s : List Char) (hb : numBoundary s) : noDigitHead s := by
  cases s with
  | nil => trivial
  | cons c t => exact hb.1

theorem parseFracPart_boundary (s : List Char) (hb : numBoundary s) :
    parseFracPart s = some ([], s) := by
  cases s with
  | nil => rfl
  | cons c t => simp [parseFracPart, hb.2.1]

theorem parseExpPart_boundary (s : List Char) (hb : numBoundary s) :
    parseExpPart s = some ([], s) := by
  cases s with
  | nil => rfl
  | cons c t =>
    have he : ¬ (c = 'e' ∨ c = 'E') := by
      rintro (h | h)
      · exact hb.2.2.1 h
      · exact hb.2.2.2 h
    simp [parseExpPart, he]

theorem parseNumTok_natToChars (n : Nat) (rest : List Char) (hb : numBoundary rest) :
    parseNumTok (natToChars n ++ rest) = some (natToChars n, rest) := by
  have hr := numBoundary_noDigitHead rest hb
  obtain ⟨c, cs, hcons⟩ := List.exists_cons_of_ne_nil (natToChars_ne_nil n)
  obtain ⟨d, hd10, hcd⟩ := natToChars_all_digit n c (by rw [hcons]; simp)
  have hface := digitChar_facts d hd10
  have hsign : signSpan (natToChars n ++ rest) = ([], natToChars n ++ rest) := by
    rw [hcons]
    show signSpan (c :: (cs ++ rest)) = ([], c :: (cs ++ rest))
    have hdash : c ≠ '-' := by
      rw [hcd]
      exact hface.2.2.2.2.1
    simp [signSpan, hdash]
  have hip := parseIntPart_natToChars n rest hr
  have hfp := parseFracPart_boundary rest hb
  have hep := parseExpPart_boundary rest hb
  simp [parseNumTok, hsign, hip, hfp, hep]

theorem numTokNat_natToChars (n : Nat) : numTokNat (natToChars n) = n := by
  obtain ⟨ds, hlt, hne, hmap, hof⟩ := natToChars_eq_map n
  have htd : takeDigits (natToChars n) = (ds, []) := by
    rw [hmap]
    simpa using takeDigits_digits_append ds hlt [] trivial
  unfold numTokNat
  rw [htd]
  obtain ⟨d0, ds', rfl⟩ := List.exists_cons_of_ne_nil hne
  simpa using hof

/-- Number.parseInt inverts String(n) for a natural number n. -/
theorem parseIntOpt_natToString (n : Nat) : parseIntOpt (natToString n) = some (n : Int) := by
  obtain ⟨ds, hlt, hne, hmap, hof⟩ := natToChars_eq_map n
  obtain ⟨c, cs, hcons⟩ := List.exists_cons_of_ne_nil (natToChars_ne_nil n)
  obtain ⟨d, hd10, hcd⟩ := natToChars_all_digit n c (by rw [hcons]; simp)
  have hface := digitChar_facts d hd10
  have htd : takeDigits (natToChars n) = (ds, []) := by
    rw [hmap]
    simpa using takeDigits_digits_append ds hlt [] trivial
  have hdrop : (natToChars n).dropWhile isJsSpace = natToChars n := by
    rw [hcons, List.dropWhile_cons, hcd]
    simp [hface.2.2.1]
  have hdash : c ≠ '-' := by
    rw [hcd]
    exact hface.2.2.2.2.1
  have hplus : c ≠ '+' := by
    rw [hcd]
    exact hface.2.2.2.2.2.1
  show parseIntOpt (String.mk (natToChars n)) = some (n : Int)
  unfold parseIntOpt
  rw [show (String.mk (natToChars n)).data = natToChars n from rfl]
  rw [hdrop, hcons]
  simp only [if_neg hdash, if_neg hplus]
  rw [← hcons, htd]
  obtain ⟨d0, ds', rfl⟩ := List.exists_cons_of_ne_nil hne
  simp only [Option.some.injEq]
  exact_mod_cast hof

theorem parseJsonVal_str (fuel : Nat) (str : String) (rest : List Char) :
    parseJsonVal (fuel + 1) (encStr str ++ rest) = some (Json.str str, rest) := by
  have h := parseJsonString_enc str.data rest
  show parseJsonVal (fuel + 1)
      ('"' :: ((str.data.map escChar).flatten ++ ['"']) ++ rest) = _
  rw [List.cons_append, List.append_assoc]
  show parseJsonVal (fuel + 1)
      ('"' :: ((str.data.map escChar).flatten ++ ('"' :: rest))) = _
  show (match parseJsonString ((str.data.map escChar).flatten ++ ('"' :: rest)) with
    | some (cs, rem) => some (Json.str (String.mk cs), rem)
    | none => none) = some (Json.str str, rest)
  rw [show (str.data.map escChar).flatten ++ ('"' :: rest) =
    (str.data.map escChar).flatten ++ '"' :: rest from rfl]
  rw [h]

theorem parseJsonVal_num (fuel n : Nat) (rest : List Char) (hb : numBoundary rest) :
    parseJsonVal (fuel + 1) (natToChars n ++ rest) = some (Json.num (natToChars n), rest) := by
  obtain ⟨c, cs, hcons⟩ := List.exists_cons_of_ne_nil (natToChars_ne_nil n)
  obtain ⟨d, hd10, hcd⟩ := natToChars_all_digit n c (by rw [hcons]; simp)
  obtain ⟨f1, f2, f3, f4, f5, f6, f7, f8, f9, f10, f11, f12, f13⟩ := digitChar_facts d hd10
  have hnum := parseNumTok_natToChars n rest hb
  rw [hcons] at hnum ⊢
  rw [List.cons_append] at hnum ⊢
  rw [hcd] at hnum ⊢
  rw [parseJsonVal.eq_def]
  simp [f7, f8, f9, f10, f11, f12, hnum]

theorem membersU (fuel : Nat) (u : String) (rest : List Char) :
    parseJsonMembers (fuel + 2)
      ('"' :: 'o' :: 'r' :: 'i' :: 'g' :: 'i' :: 'n' :: 'a' :: 'l' :: 'U' :: 'r' :: 'l' ::
        '"' :: ':' :: (encStr u ++ '\x7d' :: rest)) =
      some ([(("originalUrl" : String), Json.str u)], rest) := by
  have hsk : skipWs (encStr u ++ '\x7d' :: rest) = encStr u ++ '\x7d' :: rest := rfl
  have hval : parseJsonVal (fuel + 1) (skipWs (encStr u ++ '\x7d' :: rest)) =
      some (Json.str u, '\x7d' :: rest) := by
    rw [hsk]
    exact parseJsonVal_str fuel u ('\x7d' :: rest)
  show (match parseJsonVal (fuel + 1) (skipWs (encStr u ++ '\x7d' :: rest)) with
    | none => none
    | some (v, rem3) =>
      match skipWs rem3 with
      | ',' :: rem4 =>
        match parseJsonMembers (fuel + 1) (skipWs rem4) with
        | some (fs, rem5) => some ((("originalUrl" : String), v) :: fs, rem5)
        | none => none
      | '\x7d' :: rem4 => some ([(("originalUrl" : String), v)], rem4)
      | _ => none) =
    some ([(("originalUrl" : String), Json.str u)], rest)
  rw [hval]
  rfl

theorem membersT (fuel : Nat) (t u : String) (rest : List Char) :
    parseJsonMembers (fuel + 3)
      ('"' :: 't' :: 'i' :: 't' :: 'l' :: 'e' :: '"' :: ':' ::
        (encStr t ++ (kOriginalUrl ++ (encStr u ++ '\x7d' :: rest)))) =
      some ([(("title" : String), Json.str t),
             (("originalUrl" : String), Json.str u)], rest) := by
  have hsk : skipWs (encStr t ++ (kOriginalUrl ++ (encStr u ++ '\x7d' :: rest))) =
      encStr t ++ (kOriginalUrl ++ (encStr u ++ '\x7d' :: rest)) := rfl
  have hval : parseJsonVal (fuel + 2)
      (skipWs (encStr t ++ (kOriginalUrl ++ (encStr u ++ '\x7d' :: rest)))) =
      some (Json.str t, kOriginalUrl ++ (encStr u ++ '\x7d' :: rest)) := by
    rw [hsk]
    exact parseJsonVal_str (fuel + 1) t _
  show (match parseJsonVal (fuel + 2)
      (skipWs (encStr t ++ (kOriginalUrl ++ (encStr u ++ '\x7d' :: rest)))) with
    | none => none
    | some (v, rem3) =>
      match skipWs rem3 with
      | ',' :: rem4 =>
        match parseJsonMembers (fuel + 2) (skipWs rem4) with
        | some (fs, rem5) => some ((("title" : String), v) :: fs, rem5)
        | none => none
      | '\x7d' :: rem4 => some ([(("title" : String), v)], rem4)
      | _ => none) =
    some ([(("title" : String), Json.str t),
           (("originalUrl" : String), Json.str u)], rest)
  rw [hval]
  show (match parseJsonMembers (fuel + 2)
      ('"' :: 'o' :: 'r' :: 'i' :: 'g' :: 'i' :: 'n' :: 'a' :: 'l' :: 'U' :: 'r' :: 'l' ::
        '"' :: ':' :: (encStr u ++ '\x7d' :: rest)) with
    | some (fs, rem5) => some ((("title" : String), Json.str t) :: fs, rem5)
    | none => none) =
    some ([(("title" : String), Json.str t),
           (("originalUrl" : String), Json.str u)], rest)
  rw [membersU fuel u rest]

theorem membersY (fuel : Nat) (y t u : String) (rest : List Char) :
    parseJsonMembers (fuel + 4)
      ('"' :: 'y' :: 'o' :: 'u' :: 't' :: 'u' :: 'b' :: 'e' :: 'I' :: 'd' :: '"' :: ':' ::
        (encStr y ++ (kTitle ++ (encStr t ++ (kOriginalUrl ++ (encStr u ++ '\x7d' :: rest)))))) =
      some ([(("youtubeId" : String), Json.str y),
             (("title" : String), Json.str t),
             (("originalUrl" : String), Json.str u)], rest) := by
  have hsk : skipWs (encStr y ++ (kTitle ++ (encStr t ++ (kOriginalUrl ++
      (encStr u ++ '\x7d' :: rest))))) =
      encStr y ++ (kTitle ++ (encStr t ++ (kOriginalUrl ++ (encStr u ++ '\x7d' :: rest)))) := rfl
  have hval : parseJsonVal (fuel + 3)
      (skipWs (encStr y ++ (kTitle ++ (encStr t ++ (kOriginalUrl ++
        (encStr u ++ '\x7d' :: rest)))))) =
      some (Json.str y, kTitle ++ (encStr t ++ (kOriginalUrl ++
        (encStr u ++ '\x7d' :: rest)))) := by
    rw [hsk]
    exact parseJsonVal_str (fuel + 2) y _
  show (match parseJsonVal (fuel + 3)
      (skipWs (encStr y ++ (kTitle ++ (encStr t ++ (kOriginalUrl ++
        (encStr u ++ '\x7d' :: rest)))))) with
    | none => none
    | some (v, rem3) =>
      match skipWs rem3 with
      | ',' :: rem4 =>
        match parseJsonMembers (fuel + 3) (skipWs rem4) with
        | some (fs, rem5) => some ((("youtubeId" : String), v) :: fs, rem5)
        | none => none
      | '\x7d' :: rem4 => some ([(("youtubeId" : String), v)], rem4)
      | _ => none) =
    some ([(("youtubeId" : String), Json.str y),
           (("title" : String), Json.str t),
           (("originalUrl" : String), Json.str u)], rest)
  rw [hval]
  show (match parseJsonMembers (fuel + 3)
      ('"' :: 't' :: 'i' :: 't' :: 'l' :: 'e' :: '"' :: ':' ::
        (encStr t ++ (kOriginalUrl ++ (encStr u ++ '\x7d' :: rest)))) with
    | some (fs, rem5) => some ((("youtubeId" : String), Json.str y) :: fs, rem5)
    | none => none) =
    some ([(("youtubeId" : String), Json.str y),
           (("title" : String), Json.str t),
           (("originalUrl" : String), Json.str u)], rest)
  rw [membersT fuel t u rest]

theorem membersId (fuel : Nat) (idv : Nat) (y t u : String) (rest : List Char) :
    parseJsonMembers (fuel + 5)
      ('"' :: 'i' :: 'd' :: '"' :: ':' ::
        (natToChars idv ++ (kYoutubeId ++ (encStr y ++ (kTitle ++ (encStr t ++
          (kOriginalUrl ++ (encStr u ++ '\x7d' :: rest)))))))) =
      some ([(("id" : String), Json.num (natToChars idv)),
             (("youtubeId" : String), Json.str y),
             (("title" : String), Json.str t),
             (("originalUrl" : String), Json.str u)], rest) := by
  obtain ⟨c, cs, hcons⟩ := List.exists_cons_of_ne_nil (natToChars_ne_nil idv)
  obtain ⟨d, hd10, hcd⟩ := natToChars_all_digit idv c (by rw [hcons]; simp)
  have hface := digitChar_facts d hd10
  have hb : numBoundary (kYoutubeId ++ (encStr y ++ (kTitle ++ (encStr t ++
      (kOriginalUrl ++ (encStr u ++ '\x7d' :: rest)))))) :=
    ⟨by decide, by decide, by decide, by decide⟩
  have hsk : skipWs (natToChars idv ++ (kYoutubeId ++ (encStr y ++ (kTitle ++ (encStr t ++
      (kOriginalUrl ++ (encStr u ++ '\x7d' :: rest))))))) =
      natToChars idv ++ (kYoutubeId ++ (encStr y ++ (kTitle ++ (encStr t ++
      (kOriginalUrl ++ (encStr u ++ '\x7d' :: rest)))))) := by
    rw [hcons, List.cons_append, hcd]
    exact skipWs_cons _ _ hface.2.1
  have hval : parseJsonVal (fuel + 4)
      (skipWs (natToChars idv ++ (kYoutubeId ++ (encStr y ++ (kTitle ++ (encStr t ++
        (kOriginalUrl ++ (encStr u ++ '\x7d' :: rest)))))))) =
      some (Json.num (natToChars idv), kYoutubeId ++ (encStr y ++ (kTitle ++ (encStr t ++
        (kOriginalUrl ++ (encStr u ++ '\x7d' :: rest)))))) := by
    rw [hsk]
    exact parseJsonVal_num (fuel + 3) idv _ hb
  show (match parseJsonVal (fuel + 4)
      (skipWs (natToChars idv ++ (kYoutubeId ++ (encStr y ++ (kTitle ++ (encStr t ++
        (kOriginalUrl ++ (encStr u ++ '\x7d' :: rest)))))))) with
    | none => none
    | some (v, rem3) =>
      match skipWs rem3 with
      | ',' :: rem4 =>
        match parseJsonMembers (fuel + 4) (skipWs rem4) with
        | some (fs, rem5) => some ((("id" : String), v) :: fs, rem5)
        | none => none
      | '\x7d' :: rem4 => some ([(("id" : String), v)], rem4)
      | _ => none) =
    some ([(("id" : String), Json.num (natToChars idv)),
           (("youtubeId" : String), Json.str y),
           (("title" : String), Json.str t),
           (("originalUrl" : String), Json.str u)], rest)
  rw [hval]
  show (match parseJsonMembers (fuel + 4)
      ('"' :: 'y' :: 'o' :: 'u' :: 't' :: 'u' :: 'b' :: 'e' :: 'I' :: 'd' :: '"' :: ':' ::
        (encStr y ++ (kTitle ++ (encStr t ++ (kOriginalUrl ++
          (encStr u ++ '\x7d' :: rest)))))) with
    | some (fs, rem5) => some ((("id" : String), Json.num (natToChars idv)) :: fs, rem5)
    | none => none) =
    some ([(("id" : String), Json.num (natToChars idv)),
           (("youtubeId" : String), Json.str y),
           (("title" : String), Json.str t),
           (("originalUrl" : String), Json.str u)], rest)
  rw [membersY fuel y t u rest]

theorem encSeq_cons_head (v : PlaylistItem) (vs : List PlaylistItem) :
    ∃ T, encSeq (v :: vs) = '\x7b' :: T := by
  cases vs with
  | nil => exact ⟨_, rfl⟩
  | cons w ws => exact ⟨_, rfl⟩

theorem parseJsonVal_encItem (fuel : Nat) (v : PlaylistItem) (rest : List Char) :
    parseJsonVal (fuel + 6) (encItem v ++ rest) = some (itemJson v, rest) := by
  obtain ⟨idv, y, t, u⟩ := v
  have harr : encItem ⟨idv, y, t, u⟩ ++ rest =
      '\x7b' :: '"' :: 'i' :: 'd' :: '"' :: ':' ::
        (natToChars idv ++ (kYoutubeId ++ (encStr y ++ (kTitle ++ (encStr t ++
          (kOriginalUrl ++ (encStr u ++ '\x7d' :: rest))))))) := by
    simp [encItem, kId, kYoutubeId, kTitle, kOriginalUrl, kClose]
  rw [harr]
  show (match parseJsonMembers (fuel + 5) ('"' :: 'i' :: 'd' :: '"' :: ':' ::
      (natToChars idv ++ (kYoutubeId ++ (encStr y ++ (kTitle ++ (encStr t ++
        (kOriginalUrl ++ (encStr u ++ '\x7d' :: rest)))))))) with
    | some (fs, rem) => some (Json.obj fs, rem)
    | none => none) = some (itemJson ⟨idv, y, t, u⟩, rest)
  rw [membersId fuel idv y t u rest]
  rfl

theorem seven_mul_le_encSeq (l : List PlaylistItem) :
    7 * l.length ≤ (encSeq l).length := by
  induction l with
  | nil => simp [encSeq]
  | cons v vs ih =>
    have hn : 1 ≤ (natToChars v.id).length := List.length_pos.mpr (natToChars_ne_nil _)
    have h8 : 8 ≤ (encItem v).length := by
      simp only [encItem, encStr, kId, kYoutubeId, kTitle, kOriginalUrl, kClose,
        List.length_append, List.length_cons, List.length_nil]
      omega
    cases vs with
    | nil =>
      show 7 * ([v] : List PlaylistItem).length ≤ (encItem v).length
      simp only [List.length_cons, List.length_nil]
      omega
    | cons w ws =>
      show 7 * (v :: w :: ws).length ≤ (encItem v ++ ',' :: encSeq (w :: ws)).length
      simp only [List.length_cons, List.length_append] at ih ⊢
      omega

theorem parseJsonElems_encSeq :
    ∀ (l : List PlaylistItem) (fuel : Nat) (rest : List Char), l ≠ [] →
      parseJsonElems (7 * l.length + fuel) (encSeq l ++ ']' :: rest) =
        some (l.map itemJson, rest) := by
  intro l
  induction l with
  | nil => intro fuel rest h; exact absurd rfl h
  | cons v vs ih =>
    intro fuel rest _
    cases vs with
    | nil =>
      rw [show 7 * ([v] : List PlaylistItem).length + fuel = (fuel + 6) + 1 from by
        simp only [List.length_cons, List.length_nil]
        omega]
      show parseJsonElems ((fuel + 6) + 1) (encItem v ++ ']' :: rest) =
        some ([itemJson v], rest)
      show (match parseJsonVal (fuel + 6) (encItem v ++ ']' :: rest) with
        | none => none
        | some (w, rem) =>
          match skipWs rem with
          | ',' :: rem2 =>
            match parseJsonElems (fuel + 6) (skipWs rem2) with
            | some (ws, rem3) => some (w :: ws, rem3)
            | none => none
          | ']' :: rem2 => some ([w], rem2)
          | _ => none) = some ([itemJson v], rest)
      rw [parseJsonVal_encItem fuel v (']' :: rest)]
      rfl
    | cons w ws =>
      rw [show 7 * (v :: w :: ws).length + fuel =
          (7 * (w :: ws).length + (fuel + 6)) + 1 from by
        simp only [List.length_cons]
        omega]
      have harr : encSeq (v :: w :: ws) ++ ']' :: rest =
          encItem v ++ (',' :: (encSeq (w :: ws) ++ ']' :: rest)) := by
        show (encItem v ++ ',' :: encSeq (w :: ws)) ++ ']' :: rest = _
        simp
      rw [harr]
      show (match parseJsonVal (7 * (w :: ws).length + (fuel + 6))
          (encItem v ++ (',' :: (encSeq (w :: ws) ++ ']' :: rest))) with
        | none => none
        | some (x, rem) =>
          match skipWs rem with
          | ',' :: rem2 =>
            match parseJsonElems (7 * (w :: ws).length + (fuel + 6)) (skipWs rem2) with
            | some (xs, rem3) => some (x :: xs, rem3)
            | none => none
          | ']' :: rem2 => some ([x], rem2)
          | _ => none) = some (itemJson v :: (w :: ws).map itemJson, rest)
      rw [show parseJsonVal (7 * (w :: ws).length + (fuel + 6))
          (encItem v ++ (',' :: (encSeq (w :: ws) ++ ']' :: rest))) =
          some (itemJson v, ',' :: (encSeq (w :: ws) ++ ']' :: rest)) from
        parseJsonVal_encItem (7 * (w :: ws).length + fuel) v
          (',' :: (encSeq (w :: ws) ++ ']' :: rest))]
      show (match parseJsonElems (7 * (w :: ws).length + (fuel + 6))
          (skipWs (encSeq (w :: ws) ++ ']' :: rest)) with
        | some (xs, rem3) => some (itemJson v :: xs, rem3)
        | none => none) = some (itemJson v :: (w :: ws).map itemJson, rest)
      obtain ⟨T, hT⟩ := encSeq_cons_head w ws
      have hsk : skipWs (encSeq (w :: ws) ++ ']' :: rest) =
          encSeq (w :: ws) ++ ']' :: rest := by
        rw [hT, List.cons_append]
        exact skipWs_cons _ _ (by decide)
      rw [hsk]
      rw [ih (fuel + 6) rest (by simp)]

theorem parseJsonValue_stringify (l : List PlaylistItem) :
    parseJsonValue (stringifyPlaylist l) = some (playlistJson l) := by
  cases l with
  | nil => rfl
  | cons v vs =>
    obtain ⟨T, hT⟩ := encSeq_cons_head v vs
    have hlen7 : 7 * (v :: vs).length ≤ (encSeq (v :: vs)).length := seven_mul_le_encSeq _
    have hdata : (stringifyPlaylist (v :: vs)).data = '[' :: (encSeq (v :: vs) ++ [']']) := by
      show '[' :: encSeq (v :: vs) ++ [']'] = _
      simp
    have hslen : (stringifyPlaylist (v :: vs)).length = (encSeq (v :: vs)).length + 2 := by
      show (stringifyPlaylist (v :: vs)).data.length = _
      rw [hdata]
      simp
    have hval : parseJsonVal ((encSeq (v :: vs)).length + 2 + 1)
        ('[' :: (encSeq (v :: vs) ++ [']'])) =
        some (Json.arr ((v :: vs).map itemJson), []) := by
      show (match skipWs (encSeq (v :: vs) ++ [']']) with
        | ']' :: rem => some (Json.arr [], rem)
        | s1 =>
          match parseJsonElems ((encSeq (v :: vs)).length + 2) s1 with
          | some (ws, rem) => some (Json.arr ws, rem)
          | none => none) = some (Json.arr ((v :: vs).map itemJson), [])
      have hsk : skipWs (encSeq (v :: vs) ++ [']']) = '\x7b' :: (T ++ [']']) := by
        rw [hT, List.cons_append]
        exact skipWs_cons _ _ (by decide)
      rw [hsk]
      show (match parseJsonElems ((encSeq (v :: vs)).length + 2) ('\x7b' :: (T ++ [']'])) with
        | some (ws, rem) => some (Json.arr ws, rem)
        | none => none) = some (Json.arr ((v :: vs).map itemJson), [])
      have harr : '\x7b' :: (T ++ [']']) = encSeq (v :: vs) ++ ']' :: [] := by
        rw [hT]
        simp
      rw [harr]
      obtain ⟨f, hf⟩ : ∃ f, (encSeq (v :: vs)).length + 2 = 7 * (v :: vs).length + f :=
        ⟨(encSeq (v :: vs)).length + 2 - 7 * (v :: vs).length, by omega⟩
      rw [hf, parseJsonElems_encSeq (v :: vs) f [] (by simp)]
    unfold parseJsonValue
    rw [hdata]
    rw [hslen]
    rw [skipWs_cons '[' _ (by decide)]
    rw [hval]
    rfl

theorem decodeItem_itemJson (v : PlaylistItem) : decodeItem (itemJson v) = v := by
  obtain ⟨i, y, t, u⟩ := v
  show (⟨numTokNat (natToChars i), y, t, u⟩ : PlaylistItem) = ⟨i, y, t, u⟩
  rw [numTokNat_natToChars]

theorem decodePlaylist_playlistJson (l : List PlaylistItem) :
    decodePlaylist (playlistJson l) = l := by
  induction l with
  | nil => rfl
  | cons v vs ih =>
    show decodeItem (itemJson v) :: (vs.map itemJson).map decodeItem = v :: vs
    rw [decodeItem_itemJson]
    exact congrArg (List.cons v) ih

theorem jsLength_playlistJson (l : List PlaylistItem) :
    jsLength (playlistJson l) = some l.length := by
  simp [jsLength, playlistJson]

theorem decodePlaylist_length (v : Json) (len : Nat) (h : jsLength v = some len) :
    (decodePlaylist v).length = len := by
  cases v <;> simp_all [jsLength, decodePlaylist]

theorem stringifyPlaylist_ne_empty (l : List PlaylistItem) : stringifyPlaylist l ≠ "" := by
  intro h
  have hd := congrArg String.data h
  have : ('[' :: encSeq l ++ [']'] : List Char) = [] := hd
  simp at this

theorem truthy_some_iff (s : String) : truthy (some s) = true ↔ s ≠ "" := by
  simp [truthy]

theorem loadMode_modeString (m : PlayMode) : loadMode (some (modeString m)) = m := by
  cases m <;> rfl

theorem loadIndexE_lt (b : Bool) (v : Json) (x : Option String) (i : Nat)
    (h : loadIndexE b v x = some (some i)) :
    ∃ len, jsLength v = some len ∧ i < len := by
  cases x with
  | none => simp [loadIndexE] at h
  | some si =>
    unfold loadIndexE at h
    dsimp only at h
    cases hp : parseIntOpt si with
    | none =>
      rw [hp] at h
      simp at h
    | some index =>
      rw [hp] at h
      dsimp only at h
      by_cases h0 : 0 ≤ index
      · rw [if_pos h0] at h
        cases b with
        | false => simp at h
        | true =>
          rw [if_pos rfl] at h
          cases hn : isJsNull v with
          | true => rw [hn] at h; simp at h
          | false =>
            rw [hn] at h
            simp only [Bool.false_eq_true, if_false] at h
            cases hl : jsLength v with
            | none => rw [hl] at h; simp at h
            | some len =>
              rw [hl] at h
              dsimp only at h
              by_cases h2 : index < (len : Int)
              · rw [if_pos h2] at h
                simp only [Option.some.injEq] at h
                refine ⟨len, rfl, ?_⟩
                omega
              · rw [if_neg h2] at h
                simp at h
      · rw [if_neg h0] at h
        simp at h

theorem loadState_posValid (st : Store) (i : Nat)
    (h : (loadState st).currentTrackIndex = some i) :
    i < (loadState st).playlist.length := by
  unfold loadState at h ⊢
  dsimp only at h ⊢
  split at h
  · rename_i htr
    rw [if_pos htr]
    cases hp : parseJsonValue ((st.playlistStr).getD "") with
    | none =>
      rw [hp] at h
      simp [defaultLoaded] at h
    | some v =>
      rw [hp] at h
      dsimp only at h ⊢
      cases hE : loadIndexE true v st.indexStr with
      | none =>
        rw [hE] at h
        simp at h
      | some idx =>
        rw [hE] at h
        dsimp only at h ⊢
        obtain ⟨len, hl, hlt⟩ := loadIndexE_lt true v st.indexStr i (by rw [hE, h])
        rw [decodePlaylist_length v len hl]
        exact hlt
  · rename_i htr
    rw [if_neg htr]
    simp at h

theorem jsLengthField_eq (str : String) (v : Json) (htr : truthy (some str) = true)
    (hp : parseJsonValue str = some v) : jsLengthField (some str) = jsLength v := by
  unfold jsLengthField
  rw [if_pos htr]
  simp only [Option.getD_some]
  rw [hp]

theorem loadIndexE_field (v : Json) (str : String) (ixs : Option String)
    (hv : isJsNull v = false) (htr : truthy (some str) = true)
    (hp : parseJsonValue str = some v) :
    loadIndexE true v ixs = some (loadIndexField (some str) ixs) := by
  have hlf := jsLengthField_eq str v htr hp
  cases ixs with
  | none => rfl
  | some si =>
    unfold loadIndexE loadIndexField
    dsimp only
    cases hpi : parseIntOpt si with
    | none => rfl
    | some index =>
      dsimp only
      by_cases h0 : 0 ≤ index
      · rw [if_pos h0, if_pos rfl, hv]
        simp only [Bool.false_eq_true, if_false]
        rw [if_pos ⟨h0, htr⟩, hlf]
        cases hl : jsLength v with
        | none => rfl
        | some len =>
          dsimp only
          by_cases h2 : index < (len : Int)
          · rw [if_pos h2, if_pos h2]
          · rw [if_neg h2, if_neg h2]
      · rw [if_neg h0, if_neg (fun hc => h0 hc.1)]


theorem loadIndexField_falsy (ps ixs : Option String) (h : truthy ps = false) :
    loadIndexField ps ixs = none := by
  unfold loadIndexField
  cases ixs with
  | none => rfl
  | some si =>
    dsimp only
    cases hpi : parseIntOpt si with
    | none => rfl
    | some index =>
      dsimp only
      rw [if_neg (fun hc => absurd hc.2 (by simp [h]))]


/-! ## Lemmas about the URL parser -/

theorem litAt_sound : ∀ p s : List Char, litAt p s = true → s = p ++ s.drop p.length := by
  intro p
  induction p with
  | nil => intro s _; simp
  | cons c p ih =>
    intro s h
    cases s with
    | nil => simp [litAt] at h
    | cons d ds =>
      simp only [litAt, Bool.and_eq_true, beq_iff_eq] at h
      obtain ⟨hcd, h2⟩ := h
      subst hcd
      have := ih ds h2
      simp only [List.length_cons, List.cons_append, List.drop_succ_cons]
      exact congrArg _ this

theorem dYoutuBe_sound (s : List Char) (h : dYoutuBe s = true) :
    ∃ c, c ≠ '\n' ∧ s = ['y', 'o', 'u', 't', 'u', c, 'b', 'e', '/'] ++ s.drop 9 := by
  unfold dYoutuBe at h
  split at h
  · next c tail =>
    refine ⟨c, by simpa using h, ?_⟩
    simp
  · exact absurd h (by simp)

theorem delimAt_sound (s : List Char) (n : Nat) (h : delimAt s = some n) :
    ∃ d, DelimForm d ∧ d.length = n ∧ s = d ++ s.drop n := by
  unfold delimAt at h
  split_ifs at h with h1 h2 h3 h4 h5 h6
  · obtain ⟨c, hc, hs⟩ := dYoutuBe_sound s h1
    cases h
    exact ⟨_, Or.inr (Or.inr (Or.inr (Or.inr (Or.inr ⟨c, hc, rfl⟩)))), rfl, hs⟩
  · cases h
    exact ⟨("v/").data, Or.inl rfl, rfl, litAt_sound _ s h2⟩
  · cases h
    exact ⟨("e/").data, Or.inr (Or.inl rfl), rfl, litAt_sound _ s h3⟩
  · cases h
    exact ⟨("embed/").data, Or.inr (Or.inr (Or.inl rfl)), rfl, litAt_sound _ s h4⟩
  · cases h
    exact ⟨("watch?v=").data, Or.inr (Or.inr (Or.inr (Or.inl rfl))), rfl, litAt_sound _ s h5⟩
  · cases h
    exact ⟨("watch?feature=player_embedded&v=").data,
      Or.inr (Or.inr (Or.inr (Or.inr (Or.inl rfl)))), rfl, litAt_sound _ s h6⟩

theorem afterLastDelim_sound : ∀ s r : List Char, afterLastDelim s = some r →
    ∃ a d, s = a ++ d ++ r ∧ DelimForm d ∧ '\n' ∉ a := by
  intro s
  induction s with
  | nil => intro r h; simp [afterLastDelim] at h
  | cons c rest ih =>
    intro r h
    have hhead : (match delimAt (c :: rest) with
        | some n => some (List.drop n (c :: rest))
        | none => none) = some r →
        ∃ a d, c :: rest = a ++ d ++ r ∧ DelimForm d ∧ '\n' ∉ a := by
      intro hh
      cases hda : delimAt (c :: rest) with
      | none => rw [hda] at hh; simp at hh
      | some n =>
        rw [hda] at hh
        simp only [Option.some.injEq] at hh
        obtain ⟨d, hdf, hdl, hds⟩ := delimAt_sound _ n hda
        exact ⟨[], d, by rw [List.nil_append, ← hh]; exact hds, hdf, by simp⟩
    unfold afterLastDelim at h
    by_cases hnl : c = '\n'
    · rw [if_pos hnl] at h
      exact hhead h
    · rw [if_neg hnl] at h
      cases hal : afterLastDelim rest with
      | some r' =>
        rw [hal] at h
        simp only [Option.some.injEq] at h
        subst h
        obtain ⟨a, d, hs, hdf, hna⟩ := ih r' hal
        refine ⟨c :: a, d, ?_, hdf, ?_⟩
        · rw [List.cons_append, List.cons_append, ← hs]
        · simp only [List.mem_cons, not_or]
          exact ⟨fun hh => hnl hh.symm, hna⟩
      | none =>
        rw [hal] at h
        exact hhead h

theorem dropWhile_head_false (p : Char → Bool) (l : List Char) :
    l.dropWhile p = [] ∨ ∃ c t, l.dropWhile p = c :: t ∧ p c = false := by
  induction l with
  | nil => left; rfl
  | cons c t ih =>
    by_cases h : p c
    · simpa [List.dropWhile_cons, h] using ih
    · right
      exact ⟨c, t, by simp [List.dropWhile_cons, h], by simpa using h⟩

/-! ## Remaining invariant helpers -/

theorem posValid_addVideo (s : PlayerState) (nid : Nat) (url title : String)
    (hv : posValid s) : posValid (addVideo s nid url title) := by
  unfold addVideo
  split
  · exact hv
  · cases hx : extractVideoId url with
    | none => exact hv
    | some y =>
      dsimp only
      intro j hj
      simp only [List.length_append, List.length_cons, List.length_nil]
      by_cases hcond : s.playlist.length = 0 ∧ s.currentTrackIndex = none
      · rw [if_pos hcond] at hj
        simp only [Option.some.injEq] at hj
        omega
      · rw [if_neg hcond] at hj
        have := hv j hj
        omega

theorem posValid_togglePlayMode (s : PlayerState) (hv : posValid s) :
    posValid (togglePlayMode s) := by
  unfold togglePlayMode
  cases s.playMode
  · exact fun j hj => hv j hj
  · exact fun j hj => hv j hj
  · exact fun j hj => hv j hj

/-! ## Claim theorems -/

/-- Claim C1: the spec asserts that N consecutive shuffle advances from a
fresh history visit all N indices with no repeats.  The code violates this:
playNext pushes the pick onto the history, but the selectVideo it then calls
resets the history to just that pick, so only the immediately preceding
index is ever excluded.  Evaluating the code on a 3-track playlist with a
fresh empty history and random draws 0, 0, 0: the three advances select
indices 0, 1, 0 — index 0 repeats within the first cycle and index 2 is
never visited. -/
theorem claim1_shuffle_cycle_repeat_trace :
    (playNext ⟨[⟨1, "a", "A", "u1"⟩, ⟨2, "b", "B", "u2"⟩, ⟨3, "c", "C", "u3"⟩],
        none, false, PlayMode.shuffle, []⟩ 0).currentTrackIndex = some 0 ∧
    (playNext (playNext ⟨[⟨1, "a", "A", "u1"⟩, ⟨2, "b", "B", "u2"⟩, ⟨3, "c", "C", "u3"⟩],
        none, false, PlayMode.shuffle, []⟩ 0) 0).currentTrackIndex = some 1 ∧
    (playNext (playNext (playNext ⟨[⟨1, "a", "A", "u1"⟩, ⟨2, "b", "B", "u2"⟩,
        ⟨3, "c", "C", "u3"⟩], none, false, PlayMode.shuffle, []⟩ 0) 0) 0).currentTrackIndex =
      some 0 := by
  decide

/-- Claim C2: immediately after any shuffle-mode advance on a nonempty
playlist, the shuffle history contains exactly one element, the newly
selected index: the append inside playNext is overwritten by the reset
inside the selectVideo call it makes. -/
theorem claim2_shuffle_history_singleton (s : PlayerState) (r : Nat)
    (hm : s.playMode = PlayMode.shuffle) (hL : s.playlist.length ≠ 0) :
    (playNext s r).currentTrackIndex ≠ none ∧
    (playNext s r).playedIndices = [((playNext s r).currentTrackIndex).getD 0] := by
  obtain ⟨j, hj, heq⟩ := playNext_shuffle_shape s r hm hL
  rw [heq]
  exact ⟨by simp, by simp⟩

theorem claim2_witness :
    ((playNext ⟨[⟨1, "a", "A", "u1"⟩, ⟨2, "b", "B", "u2"⟩], some 0, true,
        PlayMode.shuffle, [0]⟩ 5).currentTrackIndex ≠ none ∧
     (playNext ⟨[⟨1, "a", "A", "u1"⟩, ⟨2, "b", "B", "u2"⟩], some 0, true,
        PlayMode.shuffle, [0]⟩ 5).playedIndices =
       [((playNext ⟨[⟨1, "a", "A", "u1"⟩, ⟨2, "b", "B", "u2"⟩], some 0, true,
        PlayMode.shuffle, [0]⟩ 5).currentTrackIndex).getD 0]) :=
  claim2_shuffle_history_singleton _ 5 rfl (by decide)

/-- Claim C4: in Off mode over a playlist of length N > 1, starting at
position 0, the k-th advance (1 ≤ k ≤ N-1) selects position k with playback
active, for every sequence of random draws; the N-th advance clears the
position and marks playback inactive. -/
theorem claim4_off_mode_plays_once_then_halts (pl : List PlaylistItem) (b : Bool)
    (h : List Nat) (rs : Nat → Nat) (hN : 1 < pl.length) :
    (∀ k, 0 < k → k < pl.length →
      (iterNextR rs k ⟨pl, some 0, b, PlayMode.off, h⟩).currentTrackIndex = some k ∧
      (iterNextR rs k ⟨pl, some 0, b, PlayMode.off, h⟩).isPlaying = true) ∧
    (iterNextR rs pl.length ⟨pl, some 0, b, PlayMode.off, h⟩).currentTrackIndex = none ∧
    (iterNextR rs pl.length ⟨pl, some 0, b, PlayMode.off, h⟩).isPlaying = false := by
  constructor
  · intro k hk0 hkN
    obtain ⟨k', rfl⟩ : ∃ k', k = k' + 1 := ⟨k - 1, by omega⟩
    rw [iterNextR_off rs k' ⟨pl, some 0, b, PlayMode.off, h⟩ 0 rfl rfl
      (show 0 + (k' + 1) < pl.length by omega)]
    exact ⟨by simp, rfl⟩
  · obtain ⟨L', hL'⟩ : ∃ L', pl.length = L' + 2 := ⟨pl.length - 2, by omega⟩
    have hmid := iterNextR_off rs L' ⟨pl, some 0, b, PlayMode.off, h⟩ 0 rfl rfl
      (show 0 + (L' + 1) < pl.length by omega)
    have hhalt := playNext_off_halt
      { (⟨pl, some 0, b, PlayMode.off, h⟩ : PlayerState) with
          currentTrackIndex := some (0 + (L' + 1)), isPlaying := true }
      (0 + (L' + 1)) (rs (L' + 1)) rfl rfl (show 0 + (L' + 1) + 1 = pl.length by omega)
      (show 1 < pl.length from hN)
    have hstep : iterNextR rs pl.length ⟨pl, some 0, b, PlayMode.off, h⟩ =
        playNext (iterNextR rs (L' + 1) ⟨pl, some 0, b, PlayMode.off, h⟩) (rs (L' + 1)) := by
      rw [hL']
      rfl
    rw [hstep, hmid, hhalt]
    exact ⟨rfl, rfl⟩

theorem claim4_witness :
    (iterNextR (fun _ => 0) 3
      ⟨[⟨1, "a", "A", "u1"⟩, ⟨2, "b", "B", "u2"⟩, ⟨3, "c", "C", "u3"⟩],
        some 0, true, PlayMode.off, []⟩).currentTrackIndex = none ∧
    (iterNextR (fun _ => 0) 2
      ⟨[⟨1, "a", "A", "u1"⟩, ⟨2, "b", "B", "u2"⟩, ⟨3, "c", "C", "u3"⟩],
        some 0, true, PlayMode.off, []⟩).currentTrackIndex = some 2 :=
  ⟨(claim4_off_mode_plays_once_then_halts
      [⟨1, "a", "A", "u1"⟩, ⟨2, "b", "B", "u2"⟩, ⟨3, "c", "C", "u3"⟩] true []
      (fun _ => 0) (by decide)).2.1,
   ((claim4_off_mode_plays_once_then_halts
      [⟨1, "a", "A", "u1"⟩, ⟨2, "b", "B", "u2"⟩, ⟨3, "c", "C", "u3"⟩] true []
      (fun _ => 0) (by decide)).1 2 (by decide) (by decide)).1⟩

/-- Claim C6: in RepeatAll mode over a playlist of length N ≥ 1, N advances
from position 0 return the position to exactly 0 (for every sequence of
random draws), and no advance in RepeatAll mode ever clears the position. -/
theorem claim6_repeat_all_exact_cycle :
    (∀ (pl : List PlaylistItem) (b : Bool) (h : List Nat) (rs : Nat → Nat),
      0 < pl.length →
      (iterNextR rs pl.length ⟨pl, some 0, b, PlayMode.repeatAll, h⟩).currentTrackIndex =
        some 0) ∧
    (∀ (s : PlayerState) (r : Nat), s.playMode = PlayMode.repeatAll →
      (playNext s r).currentTrackIndex = none → s.currentTrackIndex = none) := by
  constructor
  · intro pl b h rs hpos
    obtain ⟨L', hL'⟩ : ∃ L', pl.length = L' + 1 := ⟨pl.length - 1, by omega⟩
    conv_lhs => rw [hL']
    rw [iterNextR_repeat rs L' ⟨pl, some 0, b, PlayMode.repeatAll, h⟩ 0 rfl rfl
      (show 0 < pl.length from hpos)]
    show some ((0 + (L' + 1)) % pl.length) = some 0
    rw [hL']
    simp
  · intro s r hm
    exact playNext_repeat_never_none s r hm

theorem claim6_witness :
    (iterNextR (fun _ => 7) 3
      ⟨[⟨1, "a", "A", "u1"⟩, ⟨2, "b", "B", "u2"⟩, ⟨3, "c", "C", "u3"⟩],
        some 0, true, PlayMode.repeatAll, []⟩).currentTrackIndex = some 0 ∧
    ((playNext ⟨[⟨1, "a", "A", "u1"⟩], some 0, true, PlayMode.repeatAll, []⟩ 4).currentTrackIndex
        = none → (⟨[⟨1, "a", "A", "u1"⟩], some 0, true, PlayMode.repeatAll,
          []⟩ : PlayerState).currentTrackIndex = none) :=
  ⟨claim6_repeat_all_exact_cycle.1
      [⟨1, "a", "A", "u1"⟩, ⟨2, "b", "B", "u2"⟩, ⟨3, "c", "C", "u3"⟩] true []
      (fun _ => 7) (by decide),
   claim6_repeat_all_exact_cycle.2
      ⟨[⟨1, "a", "A", "u1"⟩], some 0, true, PlayMode.repeatAll, []⟩ 4 rfl⟩

/-- Claim C5 counterexample: the claim's formula for retreat with no
selection, ((0 - 1 + N) mod N), evaluates to N - 1 = 1 on a 2-track
playlist, but playPrevious selects plain index 0; and retreat is not free of
mode-dependent side effects: in Shuffle mode it resets the shuffle history
to the selected index while in Off mode it leaves the history alone. -/
theorem claim5_counterexample :
    (playPrevious ⟨[⟨1, "a", "A", "u1"⟩, ⟨2, "b", "B", "u2"⟩], none, false,
        PlayMode.off, []⟩).currentTrackIndex = some 0 ∧
    (((0 : Int) - 1 + 2) % 2).toNat = 1 ∧
    (playPrevious ⟨[⟨1, "a", "A", "u1"⟩, ⟨2, "b", "B", "u2"⟩], some 1, true,
        PlayMode.shuffle, [0, 1]⟩).playedIndices = [0] ∧
    (playPrevious ⟨[⟨1, "a", "A", "u1"⟩, ⟨2, "b", "B", "u2"⟩], some 1, true,
        PlayMode.off, [0, 1]⟩).playedIndices = [0, 1] := by
  decide

/-- Claim C5 as amended: on a nonempty playlist, retreat selects
((position - 1 + N) mod N) when a position is selected and plain index 0
when none is selected; the selected index, playing flag and playlist are
independent of the play mode; it is a no-op on an empty playlist; the
shuffle history is untouched except in Shuffle mode, where selectVideo
resets it to the selected index. -/
theorem claim5_retreat_spec (s : PlayerState) :
    (s.playlist.length = 0 → playPrevious s = s) ∧
    (∀ i, s.currentTrackIndex = some i → 0 < s.playlist.length →
      (playPrevious s).currentTrackIndex =
        some ((((i : Int) - 1 + s.playlist.length) % (s.playlist.length : Int)).toNat) ∧
      (playPrevious s).isPlaying = true) ∧
    (s.currentTrackIndex = none → 0 < s.playlist.length →
      (playPrevious s).currentTrackIndex = some 0 ∧ (playPrevious s).isPlaying = true) ∧
    (∀ m, (playPrevious { s with playMode := m }).currentTrackIndex =
        (playPrevious s).currentTrackIndex ∧
      (playPrevious { s with playMode := m }).isPlaying = (playPrevious s).isPlaying ∧
      (playPrevious { s with playMode := m }).playlist = (playPrevious s).playlist) ∧
    (s.playMode ≠ PlayMode.shuffle → (playPrevious s).playedIndices = s.playedIndices) ∧
    (s.playMode = PlayMode.shuffle → 0 < s.playlist.length →
      (playPrevious s).playedIndices = [((playPrevious s).currentTrackIndex).getD 0]) := by
  refine ⟨?_, ?_, ?_, ?_, ?_, ?_⟩
  · intro h0
    simp [playPrevious, h0]
  · intro i hc h0
    have hL : ¬ s.playlist.length = 0 := by omega
    have hpos : (0 : Int) < (s.playlist.length : Int) := by exact_mod_cast h0
    have h1 : 0 ≤ ((i : Int) - 1) % (s.playlist.length : Int) :=
      Int.emod_nonneg _ (by omega)
    have h2 : ((i : Int) - 1) % (s.playlist.length : Int) < (s.playlist.length : Int) :=
      Int.emod_lt_of_pos _ hpos
    have h3 : (((i : Int) - 1) % (s.playlist.length : Int)).toNat < s.playlist.length := by
      omega
    constructor
    · simp [playPrevious, hc, hL, selectVideo, h3]
    · simp [playPrevious, hc, hL, selectVideo, h3]
  · intro hc h0
    have hL : ¬ s.playlist.length = 0 := by omega
    constructor
    · simp [playPrevious, hc, hL, selectVideo, h0]
    · simp [playPrevious, hc, hL, selectVideo, h0]
  · exact playPrevious_mode_independent s
  · intro hm
    have hsel : ∀ j, (selectVideo s j).playedIndices = s.playedIndices := by
      intro j
      unfold selectVideo
      split
      · simp [hm]
      · rfl
    unfold playPrevious
    split
    · rfl
    · exact hsel _
  · intro hm h0
    have hL : ¬ s.playlist.length = 0 := by omega
    cases hc : s.currentTrackIndex with
    | none => simp [playPrevious, hc, hL, selectVideo, h0, hm]
    | some i =>
      have hpos : (0 : Int) < (s.playlist.length : Int) := by exact_mod_cast h0
      have h1 : 0 ≤ ((i : Int) - 1) % (s.playlist.length : Int) :=
        Int.emod_nonneg _ (by omega)
      have h2 : ((i : Int) - 1) % (s.playlist.length : Int) < (s.playlist.length : Int) :=
        Int.emod_lt_of_pos _ hpos
      have h3 : (((i : Int) - 1) % (s.playlist.length : Int)).toNat < s.playlist.length := by
        omega
      simp [playPrevious, hc, hL, selectVideo, h3, hm]

theorem claim5_witness :
    ((⟨[⟨1, "a", "A", "u1"⟩, ⟨2, "b", "B", "u2"⟩, ⟨3, "c", "C", "u3"⟩], some 0, true,
        PlayMode.off, []⟩ : PlayerState).playlist.length = 0 →
      playPrevious ⟨[⟨1, "a", "A", "u1"⟩, ⟨2, "b", "B", "u2"⟩, ⟨3, "c", "C", "u3"⟩],
        some 0, true, PlayMode.off, []⟩ =
      ⟨[⟨1, "a", "A", "u1"⟩, ⟨2, "b", "B", "u2"⟩, ⟨3, "c", "C", "u3"⟩], some 0, true,
        PlayMode.off, []⟩) ∧
    ((playPrevious ⟨[⟨1, "a", "A", "u1"⟩, ⟨2, "b", "B", "u2"⟩, ⟨3, "c", "C", "u3"⟩],
        some 0, true, PlayMode.off, []⟩).currentTrackIndex =
      some ((((0 : Nat) : Int) - 1 +
        (⟨[⟨1, "a", "A", "u1"⟩, ⟨2, "b", "B", "u2"⟩, ⟨3, "c", "C", "u3"⟩], some 0, true,
          PlayMode.off, []⟩ : PlayerState).playlist.length) %
        ((⟨[⟨1, "a", "A", "u1"⟩, ⟨2, "b", "B", "u2"⟩, ⟨3, "c", "C", "u3"⟩], some 0, true,
          PlayMode.off, []⟩ : PlayerState).playlist.length : Int)).toNat ∧
      (playPrevious ⟨[⟨1, "a", "A", "u1"⟩, ⟨2, "b", "B", "u2"⟩, ⟨3, "c", "C", "u3"⟩],
        some 0, true, PlayMode.off, []⟩).isPlaying = true) :=
  ⟨(claim5_retreat_spec _).1,
   (claim5_retreat_spec _).2.1 0 rfl (by decide)⟩

/-- Claim C8: removing the currently selected track by id: if the playlist
becomes empty the selection clears and playback stops; if the removed index
still fits in the shrunken playlist it stays selected (the following track,
which shifted into that slot, becomes current) with playback active;
otherwise the new last index is selected with playback active. -/
theorem claim8_remove_selected_track (s : PlayerState) (rid i : Nat)
    (hfi : findIndexAux (fun v => v.id == rid) s.playlist = some i)
    (hsel : s.currentTrackIndex = some i) :
    (removeVideo s rid).playlist = s.playlist.filter (fun v => v.id != rid) ∧
    ((s.playlist.filter (fun v => v.id != rid)).length = 0 →
      (removeVideo s rid).currentTrackIndex = none ∧
      (removeVideo s rid).isPlaying = false) ∧
    (i < (s.playlist.filter (fun v => v.id != rid)).length →
      (removeVideo s rid).currentTrackIndex = some i ∧
      (removeVideo s rid).isPlaying = true ∧
      (s.playlist.Pairwise (fun a b => a.id ≠ b.id) →
        (removeVideo s rid).playlist[i]? = s.playlist[i + 1]?)) ∧
    ((s.playlist.filter (fun v => v.id != rid)).length ≠ 0 →
      ¬ i < (s.playlist.filter (fun v => v.id != rid)).length →
      (removeVideo s rid).currentTrackIndex =
        some ((s.playlist.filter (fun v => v.id != rid)).length - 1) ∧
      (removeVideo s rid).isPlaying = true) := by
  have hi := findIndexAux_lt _ s.playlist i hfi
  have hshift : s.playlist.Pairwise (fun a b => a.id ≠ b.id) →
      (s.playlist.filter (fun v => v.id != rid))[i]? = s.playlist[i + 1]? := by
    intro hu
    rw [filter_found_eq rid s.playlist i hfi hu]
    have htk : (s.playlist.take i).length = i := by
      simp [List.length_take]
      omega
    rw [List.getElem?_append_right (by omega), htk, Nat.sub_self, List.getElem?_drop]
  unfold removeVideo
  rw [hfi]
  dsimp only
  rw [if_pos hsel]
  by_cases h0 : (s.playlist.filter (fun v => v.id != rid)).length = 0
  · rw [if_pos h0]
    refine ⟨rfl, fun _ => ⟨rfl, rfl⟩, ?_, ?_⟩
    · intro hlt
      exact absurd hlt (by omega)
    · intro hne _
      exact absurd h0 hne
  · rw [if_neg h0]
    by_cases hlt : i < (s.playlist.filter (fun v => v.id != rid)).length
    · rw [if_pos hlt]
      refine ⟨rfl, fun hc => absurd hc h0, ?_, ?_⟩
      · exact fun _ => ⟨rfl, rfl, hshift⟩
      · intro _ hcon
        exact absurd hlt hcon
    · rw [if_neg hlt]
      exact ⟨rfl, fun hc => absurd hc h0, fun hc => absurd hc hlt, fun _ _ => ⟨rfl, rfl⟩⟩

theorem claim8_witness :
    findIndexAux (fun v => v.id == 1)
      ([⟨1, "a", "A", "u1"⟩, ⟨2, "b", "B", "u2"⟩] : List PlaylistItem) = some 0 ∧
    (0 < (([⟨1, "a", "A", "u1"⟩, ⟨2, "b", "B", "u2"⟩] : List PlaylistItem).filter
        (fun v => v.id != 1)).length →
      (removeVideo ⟨[⟨1, "a", "A", "u1"⟩, ⟨2, "b", "B", "u2"⟩], some 0, true,
        PlayMode.off, []⟩ 1).currentTrackIndex = some 0 ∧
      (removeVideo ⟨[⟨1, "a", "A", "u1"⟩, ⟨2, "b", "B", "u2"⟩], some 0, true,
        PlayMode.off, []⟩ 1).isPlaying = true ∧
      (([⟨1, "a", "A", "u1"⟩, ⟨2, "b", "B", "u2"⟩] : List PlaylistItem).Pairwise
          (fun a b => a.id ≠ b.id) →
        (removeVideo ⟨[⟨1, "a", "A", "u1"⟩, ⟨2, "b", "B", "u2"⟩], some 0, true,
          PlayMode.off, []⟩ 1).playlist[0]? =
          ([⟨1, "a", "A", "u1"⟩, ⟨2, "b", "B", "u2"⟩] : List PlaylistItem)[0 + 1]?)) :=
  ⟨by decide,
   (claim8_remove_selected_track
     ⟨[⟨1, "a", "A", "u1"⟩, ⟨2, "b", "B", "u2"⟩], some 0, true, PlayMode.off, []⟩
     1 0 (by decide) rfl).2.2.1⟩

/-- Claim C9 counterexample: the position invariant is not preserved by
remove when the playlist contains duplicate ids (which addVideo's
Date.now() ids do not rule out).  Removing id 1 from a 3-track playlist
whose first two tracks share id 1 while track index 2 is selected deletes
two tracks but decrements the selection only once, leaving position 1 in a
1-track playlist. -/
theorem claim9_counterexample :
    posValid ⟨[⟨1, "a", "A", "u1"⟩, ⟨1, "b", "B", "u2"⟩, ⟨2, "c", "C", "u3"⟩],
      some 2, true, PlayMode.off, []⟩ ∧
    (removeVideo ⟨[⟨1, "a", "A", "u1"⟩, ⟨1, "b", "B", "u2"⟩, ⟨2, "c", "C", "u3"⟩],
      some 2, true, PlayMode.off, []⟩ 1).currentTrackIndex = some 1 ∧
    (removeVideo ⟨[⟨1, "a", "A", "u1"⟩, ⟨1, "b", "B", "u2"⟩, ⟨2, "c", "C", "u3"⟩],
      some 2, true, PlayMode.off, []⟩ 1).playlist.length = 1 ∧
    ¬ posValid (removeVideo ⟨[⟨1, "a", "A", "u1"⟩, ⟨1, "b", "B", "u2"⟩,
      ⟨2, "c", "C", "u3"⟩], some 2, true, PlayMode.off, []⟩ 1) := by
  refine ⟨?_, by decide, by decide, ?_⟩
  · intro j hj
    have hj' : some 2 = some j := hj
    cases hj'
    decide
  · intro hcon
    have h1 := hcon 1 (by decide)
    have h2 : (removeVideo ⟨[⟨1, "a", "A", "u1"⟩, ⟨1, "b", "B", "u2"⟩,
        ⟨2, "c", "C", "u3"⟩], some 2, true, PlayMode.off, []⟩ 1).playlist.length = 1 := by
      decide
    omega

/-- Claim C9 as amended: from any state satisfying the position invariant,
every operation preserves it, with removal additionally assuming the data
model's no-duplicate-ids playlist invariant (without it, removal of a
duplicated id can leave the position out of range); the load effect
establishes the invariant unconditionally. -/
theorem claim9_position_validity (s : PlayerState) (hv : posValid s) :
    (∀ nid url title, posValid (addVideo s nid url title)) ∧
    (∀ rid, s.playlist.Pairwise (fun a b => a.id ≠ b.id) →
      posValid (removeVideo s rid)) ∧
    (∀ i, posValid (selectVideo s i)) ∧
    (∀ r, posValid (playNext s r)) ∧
    posValid (playPrevious s) ∧
    posValid (togglePlayMode s) ∧
    (∀ st i, (loadState st).currentTrackIndex = some i →
      i < (loadState st).playlist.length) :=
  ⟨fun nid url title => posValid_addVideo s nid url title hv,
   fun rid hu => posValid_removeVideo s rid hv hu,
   fun i => posValid_selectVideo s i hv,
   fun r => posValid_playNext s r hv,
   posValid_playPrevious s hv,
   posValid_togglePlayMode s hv,
   fun st i h => loadState_posValid st i h⟩

theorem claim9_witness :
    posValid (playPrevious ⟨[⟨1, "a", "A", "u1"⟩], some 0, true, PlayMode.off, []⟩) ∧
    posValid (togglePlayMode ⟨[⟨1, "a", "A", "u1"⟩], some 0, true, PlayMode.off, []⟩) := by
  have hv0 : posValid (⟨[⟨1, "a", "A", "u1"⟩], some 0, true, PlayMode.off,
      []⟩ : PlayerState) := by
    intro j hj
    have hj' : some 0 = some j := hj
    cases hj'
    decide
  exact ⟨(claim9_position_validity _ hv0).2.2.2.2.1,
    (claim9_position_validity _ hv0).2.2.2.2.2.1⟩

/-- Claim C7: saving any triple whose position is none or a valid index and
then loading the resulting store reproduces the identical triple. -/
theorem claim7_save_load_roundtrip (pl : List PlaylistItem) (idx : Option Nat)
    (m : PlayMode) (hidx : ∀ i, idx = some i → i < pl.length) :
    loadState (saveState pl idx m) = ⟨pl, idx, m⟩ := by
  have htr : truthy (some (stringifyPlaylist pl)) = true :=
    (truthy_some_iff _).mpr (stringifyPlaylist_ne_empty pl)
  cases idx with
  | none =>
    have hE : loadIndexE true (playlistJson pl) (some "") = some none := rfl
    unfold saveState loadState
    dsimp only
    rw [if_pos htr]
    simp only [Option.getD_some]
    rw [parseJsonValue_stringify]
    dsimp only
    rw [hE]
    dsimp only
    rw [loadMode_modeString, decodePlaylist_playlistJson]
  | some i =>
    have hlt : i < pl.length := hidx i rfl
    have hE : loadIndexE true (playlistJson pl) (some (natToString i)) =
        some (some i) := by
      unfold loadIndexE
      dsimp only
      rw [parseIntOpt_natToString]
      dsimp only
      rw [if_pos (Int.natCast_nonneg i), if_pos rfl]
      rw [show isJsNull (playlistJson pl) = false from rfl]
      simp only [Bool.false_eq_true, if_false]
      rw [jsLength_playlistJson]
      dsimp only
      rw [if_pos (by exact_mod_cast hlt)]
      simp
    unfold saveState loadState
    dsimp only
    rw [if_pos htr]
    simp only [Option.getD_some]
    rw [parseJsonValue_stringify]
    dsimp only
    rw [hE]
    dsimp only
    rw [loadMode_modeString, decodePlaylist_playlistJson]

theorem claim7_witness :
    loadState (saveState [⟨1, "dQw4w9WgXcQ", "My \"Song\"", "a\\b"⟩, ⟨2, "b", "B", "u"⟩]
      (some 1) PlayMode.repeatAll) =
    ⟨[⟨1, "dQw4w9WgXcQ", "My \"Song\"", "a\\b"⟩, ⟨2, "b", "B", "u"⟩], some 1,
      PlayMode.repeatAll⟩ :=
  claim7_save_load_roundtrip _ _ _ (by intro i h; cases h; decide)

/-- Claim C3 counterexample: the claim says a malformed playlist entry
degrades only the playlist field.  With the stored triple ("[", "1",
"repeat-all"), JSON.parse of "[" throws inside the single try block, so the
valid mode entry "repeat-all" is also lost: the load yields all three
defaults instead of mode repeat-all. -/
theorem claim3_counterexample :
    loadState ⟨some ("["), some ("1"), some ("repeat-all")⟩ = defaultLoaded ∧
    loadMode (some ("repeat-all")) = PlayMode.repeatAll ∧
    defaultLoaded.playMode ≠ PlayMode.repeatAll := by
  decide

/-- Claim C3 as amended: whenever the stored playlist entry is absent,
empty, or parses as JSON to a non-null value — JSON.parse accepts any
valid JSON value here, e.g. a bare number "5" or the array "[1]", not only
stringified playlists — the three fields load independently, each
degrading to its own default on its own parse or validation failure; in
particular a corrupted position string ("abc") or an out-of-range position
yields position none while the playlist loads intact.  But a playlist
entry that is not valid JSON throws inside the shared try block before any
field is set, so the whole load degrades to all three defaults.  (A
stored "null" parses but then throws a TypeError at the index guard's
.length read, which loses index and mode while keeping the playlist, so
null is excluded from the isolation conjunct.) -/
theorem claim3_load_field_isolation :
    (∀ ps ixs ms, (ps = none ∨ ps = some "" ∨
        ∃ str v, ps = some str ∧ parseJsonValue str = some v ∧ isJsNull v = false) →
      loadState ⟨ps, ixs, ms⟩ =
        ⟨loadPlaylistField ps, loadIndexField ps ixs, loadModeField ms⟩) ∧
    (∀ (pl : List PlaylistItem) (ms : Option String),
      loadState ⟨some (stringifyPlaylist pl), some ("abc"), ms⟩ =
        ⟨pl, none, loadModeField ms⟩) ∧
    (∀ (pl : List PlaylistItem) (k : Nat) (ms : Option String), pl.length ≤ k →
      loadState ⟨some (stringifyPlaylist pl), some (natToString k), ms⟩ =
        ⟨pl, none, loadModeField ms⟩) ∧
    (∀ (str : String) (ixs ms : Option String), str ≠ "" → parseJsonValue str = none →
      loadState ⟨some str, ixs, ms⟩ = defaultLoaded) := by
  refine ⟨?_, ?_, ?_, ?_⟩
  · intro ps ixs ms h
    rcases h with rfl | rfl | ⟨str, v, rfl, hp, hv⟩
    · rw [loadIndexField_falsy none ixs rfl]
      rfl
    · rw [loadIndexField_falsy (some "") ixs rfl]
      rfl
    · have hne : str ≠ "" := by
        intro he
        rw [he] at hp
        exact Option.noConfusion ((show parseJsonValue "" = none from rfl) ▸ hp)
      have htr : truthy (some str) = true := (truthy_some_iff _).mpr hne
      have hpf : loadPlaylistField (some str) = decodePlaylist v := by
        unfold loadPlaylistField
        rw [if_pos htr]
        simp only [Option.getD_some]
        rw [hp]
      unfold loadState
      dsimp only
      rw [if_pos htr]
      simp only [Option.getD_some]
      rw [hp]
      dsimp only
      rw [loadIndexE_field v str ixs hv htr hp]
      dsimp only
      rw [hpf]
      rfl
  · intro pl ms
    have htr : truthy (some (stringifyPlaylist pl)) = true :=
      (truthy_some_iff _).mpr (stringifyPlaylist_ne_empty pl)
    have hE : loadIndexE true (playlistJson pl) (some ("abc")) = some none := by
      unfold loadIndexE
      dsimp only
      rw [show parseIntOpt ("abc") = none from by decide]
    unfold loadState
    dsimp only
    rw [if_pos htr]
    simp only [Option.getD_some]
    rw [parseJsonValue_stringify]
    dsimp only
    rw [hE]
    dsimp only
    rw [decodePlaylist_playlistJson]
    rfl
  · intro pl k ms hk
    have htr : truthy (some (stringifyPlaylist pl)) = true :=
      (truthy_some_iff _).mpr (stringifyPlaylist_ne_empty pl)
    have hE : loadIndexE true (playlistJson pl) (some (natToString k)) = some none := by
      unfold loadIndexE
      dsimp only
      rw [parseIntOpt_natToString]
      dsimp only
      rw [if_pos (Int.natCast_nonneg k), if_pos rfl]
      rw [show isJsNull (playlistJson pl) = false from rfl]
      simp only [Bool.false_eq_true, if_false]
      rw [jsLength_playlistJson]
      dsimp only
      rw [if_neg (by exact_mod_cast Nat.not_lt.mpr hk)]
    unfold loadState
    dsimp only
    rw [if_pos htr]
    simp only [Option.getD_some]
    rw [parseJsonValue_stringify]
    dsimp only
    rw [hE]
    dsimp only
    rw [decodePlaylist_playlistJson]
    rfl
  · intro str ixs ms hne hp
    have htr : truthy (some str) = true := (truthy_some_iff _).mpr hne
    unfold loadState
    dsimp only
    rw [if_pos htr]
    simp only [Option.getD_some]
    rw [hp]

theorem claim3_witness :
    (loadState ⟨some (stringifyPlaylist [⟨1, "x", "T", "U"⟩]), some ("abc"),
        some ("shuffle")⟩ =
      ⟨[⟨1, "x", "T", "U"⟩], none, loadModeField (some ("shuffle"))⟩) ∧
    (loadState ⟨some ("5"), some ("0"), some ("repeat-all")⟩ =
      ⟨loadPlaylistField (some ("5")), loadIndexField (some ("5")) (some ("0")),
        loadModeField (some ("repeat-all"))⟩) ∧
    (loadState ⟨some ("[1]"), some ("0"), some ("shuffle")⟩ =
      ⟨loadPlaylistField (some ("[1]")), loadIndexField (some ("[1]")) (some ("0")),
        loadModeField (some ("shuffle"))⟩) :=
  ⟨claim3_load_field_isolation.2.1 [⟨1, "x", "T", "U"⟩] (some ("shuffle")),
   claim3_load_field_isolation.1 (some ("5")) (some ("0")) (some ("repeat-all"))
     (Or.inr (Or.inr ⟨"5", Json.num ['5'], rfl, rfl, rfl⟩)),
   claim3_load_field_isolation.1 (some ("[1]")) (some ("0")) (some ("shuffle"))
     (Or.inr (Or.inr ⟨"[1]", Json.arr [Json.num ['1']], rfl, rfl, rfl⟩))⟩

/-- Claim C10: extractVideoId returns some id exactly when the regex
matches: the id is then the exact captured segment — an 11-character run of
non-#&? characters that directly follows a recognized delimiter form
occurring after a newline-free prefix and is maximal (the text after it is
empty or starts with a stop character).  When the regex does not match, or
the captured segment has a length other than 11, the result is none.  The
embedding is a pure function, so same input gives same output without side
effects. -/
theorem claim10_extract_media_id_spec :
    (∀ (url v : String), extractVideoId url = some v →
      v.length = 11 ∧
      ∃ a d rest, url.data = a ++ d ++ (v.data ++ rest) ∧ DelimForm d ∧ '\n' ∉ a ∧
        (∀ c ∈ v.data, stopChar c = false) ∧
        (rest = [] ∨ ∃ c t, rest = c :: t ∧ stopChar c = true)) ∧
    (∀ (url : String) (r : List Char), afterLastDelim url.data = some r →
      (r.takeWhile (fun ch => !(stopChar ch))).length ≠ 11 →
      extractVideoId url = none) ∧
    (∀ url : String, afterLastDelim url.data = none → extractVideoId url = none) := by
  refine ⟨?_, ?_, ?_⟩
  · intro url v h
    unfold extractVideoId at h
    cases hal : afterLastDelim url.data with
    | none => rw [hal] at h; exact absurd h (by simp)
    | some r =>
      rw [hal] at h
      dsimp only at h
      split_ifs at h with hlen
      · simp only [Option.some.injEq] at h
        subst h
        obtain ⟨a, d, hs, hdf, hna⟩ := afterLastDelim_sound url.data r hal
        constructor
        · exact hlen
        · refine ⟨a, d, r.dropWhile (fun ch => !(stopChar ch)), ?_, hdf, hna, ?_, ?_⟩
          · rw [hs]
            show a ++ d ++ r = a ++ d ++ (List.takeWhile (fun ch => !(stopChar ch)) r ++
                List.dropWhile (fun ch => !(stopChar ch)) r)
            rw [List.takeWhile_append_dropWhile]
          · intro c hc
            have := List.mem_takeWhile_imp hc
            simpa using this
          · rcases dropWhile_head_false (fun ch => !(stopChar ch)) r with h0 | ⟨c, t, hct, hcf⟩
            · exact Or.inl h0
            · refine Or.inr ⟨c, t, hct, ?_⟩
              simpa using hcf
  · intro url r hal hne
    unfold extractVideoId
    rw [hal]
    dsimp only
    rw [if_neg hne]
  · intro url hal
    unfold extractVideoId
    rw [hal]

theorem claim10_witness :
    (("abcdefghijk" : String).length = 11 ∧
      ∃ a d rest,
        ("https://www.youtube.com/watch?v=abcdefghijk" : String).data =
          a ++ d ++ (("abcdefghijk" : String).data ++ rest) ∧ DelimForm d ∧ '\n' ∉ a ∧
        (∀ c ∈ ("abcdefghijk" : String).data, stopChar c = false) ∧
        (rest = [] ∨ ∃ c t, rest = c :: t ∧ stopChar c = true)) ∧
    extractVideoId ("watch?v=tooshort") = none :=
  ⟨claim10_extract_media_id_spec.1 ("https://www.youtube.com/watch?v=abcdefghijk")
      ("abcdefghijk") (by decide),
   claim10_extract_media_id_spec.2.1 ("watch?v=tooshort") (("tooshort").data)
      (by decide) (by decide)⟩








end MusicPlayer
